import Mathlib

/-
Verification of the world-transmuter-cli migration driver.

The driver's record trees (valence_nbt compounds) are modelled as
association lists of string-keyed tagged values; the external type
converter and the version catalog are abstract parameters; filesystem
folders are association lists from file stem to parsed content; fallible
syscalls (rename, region writes) take explicit outcome flags.  Machine
integers are Int/Nat with explicit two-power wraparound where Rust casts
between i32/u32/i64/u64.
-/

set_option maxRecDepth 4000

namespace WTCli

/-! ## Tagged record values (valence_nbt JCompound, shallow) -/

inductive JVal : Type where
  | vbyte (n : Int)
  | vint (n : Int)
  | vlong (n : Int)
  | vstr (s : String)
  | vlongArr (ns : List Int)
  | vlist (elems : List JVal)
  | vcomp (entries : List (String × JVal))

abbrev Compound := List (String × JVal)

/-- Association-list lookup (first binding wins, as in a key-unique map). -/
def alookup {κ α : Type} [BEq κ] (l : List (κ × α)) (k : κ) : Option α :=
  (l.find? (fun p => p.1 == k)).map (fun p => p.2)

/-- Remove every binding of a key. On the key-unique lists the codec
produces this is exactly `Compound::remove`. -/
def aremove {κ α : Type} [BEq κ] (l : List (κ × α)) (k : κ) : List (κ × α) :=
  l.filter (fun p => !(p.1 == k))

/-- Insert or replace a binding (map semantics; position not significant). -/
def ainsert {κ α : Type} [BEq κ] (l : List (κ × α)) (k : κ) (v : α) : List (κ × α) :=
  aremove l k ++ [(k, v)]

def getKey (c : Compound) (k : String) : Option JVal := alookup c k

def removeKey (c : Compound) (k : String) : Compound := aremove c k

def insertKey (c : Compound) (k : String) (v : JVal) : Compound := ainsert c k v

/-- The `Some(JValue::Compound(c))` pattern on a lookup result. -/
def asComp : Option JVal → Option Compound
  | some (JVal.vcomp c) => some c
  | _ => none

/-- The `Some(JValue::String(s))` pattern on a lookup result. -/
def asStr : Option JVal → Option String
  | some (JVal.vstr s) => some s
  | _ => none

/-- The `Some(JValue::LongArray(a))` pattern on a lookup result. -/
def asLongs : Option JVal → Option (List Int)
  | some (JVal.vlongArr a) => some a
  | _ => none

/-- `JValue::as_i32` on the numeric tags the driver reads. -/
def asI32 : JVal → Option Int
  | JVal.vbyte n => some n
  | JVal.vint n => some n
  | _ => none

/-- `as_bool`: a numeric value, nonzero meaning true. -/
def asBool (v : JVal) : Option Bool := (asI32 v).map (fun n => decide (n ≠ 0))

/-- `x as u32` for a signed value: zero-extended 32-bit reinterpretation. -/
def toU32 (n : Int) : Nat := (n % (2 ^ 32 : Int)).toNat

/-- `n as i32` for an unsigned value: wrap into the signed 32-bit range. -/
def i32ofU32 (n : Nat) : Int :=
  if n % 2 ^ 32 < 2 ^ 31 then ((n % 2 ^ 32 : Nat) : Int)
  else ((n % 2 ^ 32 : Nat) : Int) - 2 ^ 32

/-- `n as i64` for an unsigned 64-bit value. -/
def i64ofU64 (n : Nat) : Int :=
  if n % 2 ^ 64 < 2 ^ 63 then ((n % 2 ^ 64 : Nat) : Int)
  else ((n % 2 ^ 64 : Nat) : Int) - 2 ^ 64

/-! ## External collaborators: version catalog and type converter -/

structure VEntry where
  dataVersion : Nat
  vname : String

/-- `get_version_by_id`, abstract. -/
abbrev Catalog := Nat → Option VEntry

/-- A type converter `(record, from_id, to_id)`, abstract. -/
abbrev Converter := Nat → Nat → Compound → Compound

/-- A catalog that knows every id, with `data_version = id`
(used to instantiate examples). -/
def catAll : Catalog := fun n => some ⟨n, "v"⟩

/-- The identity converter (used to instantiate examples). -/
def convId : Converter := fun _ _ c => c

/-! ## The record upgrader (`upgrade` in main.rs) -/

structure UpgradeResult where
  ok : Bool
  data : Compound
  convertedWith : Option (Nat × Nat)

/-- The version a record claims: `DataVersion` as i32 reinterpreted as u32,
falling back to the default when absent or non-numeric. -/
def interpDataVersion (dv : Option JVal) (defaultVersion : Nat) : Nat :=
  match dv.bind asI32 with
  | some n => toU32 n
  | none => defaultVersion

/-- `upgrade(typ, data, name, to_version, default_version)` from main.rs:
remove `DataVersion`, resolve the id against the catalog, refuse unknown
ids and downgrades, otherwise convert and stamp the target version. -/
def upgradeRecord (catalog : Catalog) (convert : Converter) (data : Compound)
    (toVersion defaultVersion : Nat) : UpgradeResult :=
  let dv := getKey data "DataVersion"
  let data1 := removeKey data "DataVersion"
  let fromId := interpDataVersion dv defaultVersion
  match catalog fromId with
  | none => ⟨false, data1, none⟩
  | some fromV =>
    if toVersion < fromV.dataVersion then ⟨false, data1, none⟩
    else
      ⟨true,
        insertKey (convert fromV.dataVersion toVersion data1) "DataVersion"
          (JVal.vint (i32ofU32 toVersion)),
        some (fromV.dataVersion, toVersion)⟩

/-! ## Association-list lemmas -/

theorem alookup_cons {κ α : Type} [BEq κ] (p : κ × α) (l : List (κ × α)) (k : κ) :
    alookup (p :: l) k = if p.1 == k then some p.2 else alookup l k := by
  by_cases h : p.1 == k
  · rw [if_pos h]
    unfold alookup
    rw [List.find?_cons_of_pos (p := fun q => q.1 == k) l h]
    rfl
  · rw [if_neg h]
    unfold alookup
    rw [List.find?_cons_of_neg (p := fun q => q.1 == k) l h]

theorem aremove_cons {κ α : Type} [BEq κ] (p : κ × α) (l : List (κ × α)) (k : κ) :
    aremove (p :: l) k = if p.1 == k then aremove l k else p :: aremove l k := by
  by_cases h : p.1 == k
  · rw [if_pos h]
    simp [aremove, List.filter_cons, h]
  · rw [if_neg h]
    simp only [Bool.not_eq_true] at h
    simp [aremove, List.filter_cons, h]

theorem alookup_append {κ α : Type} [BEq κ] (a b : List (κ × α)) (k : κ) :
    alookup (a ++ b) k = ((alookup a k).orElse (fun _ => alookup b k)) := by
  induction a with
  | nil => simp [alookup]
  | cons p tl ih =>
    by_cases h : p.1 == k
    · simp only [List.cons_append, alookup_cons, if_pos h]
      rfl
    · simp only [List.cons_append, alookup_cons, if_neg h, ih]

theorem alookup_aremove_self {κ α : Type} [BEq κ] (l : List (κ × α)) (k : κ) :
    alookup (aremove l k) k = none := by
  induction l with
  | nil => rfl
  | cons p tl ih =>
    rw [aremove_cons]
    by_cases h : p.1 == k
    · rw [if_pos h]; exact ih
    · rw [if_neg h, alookup_cons, if_neg h]; exact ih

theorem alookup_aremove_ne {κ α : Type} [BEq κ] [LawfulBEq κ]
    (l : List (κ × α)) (k k2 : κ) (h : k2 ≠ k) :
    alookup (aremove l k) k2 = alookup l k2 := by
  induction l with
  | nil => rfl
  | cons p tl ih =>
    rw [aremove_cons]
    by_cases hp : p.1 == k
    · have hne : ¬ (p.1 == k2) = true := fun hc =>
        h ((eq_of_beq hc).symm.trans (eq_of_beq hp))
      rw [if_pos hp, alookup_cons, if_neg hne]
      exact ih
    · rw [if_neg hp, alookup_cons, alookup_cons, ih]

theorem alookup_ainsert_self {κ α : Type} [BEq κ] [LawfulBEq κ]
    (l : List (κ × α)) (k : κ) (v : α) : alookup (ainsert l k v) k = some v := by
  rw [ainsert, alookup_append, alookup_aremove_self]
  simp [alookup_cons, Option.orElse]

theorem alookup_ainsert_ne {κ α : Type} [BEq κ] [LawfulBEq κ]
    (l : List (κ × α)) (k k2 : κ) (v : α) (h : k2 ≠ k) :
    alookup (ainsert l k v) k2 = alookup l k2 := by
  rw [ainsert, alookup_append, alookup_aremove_ne l k k2 h]
  have hne : ¬ (k == k2) = true := fun hc => h (eq_of_beq hc).symm
  cases hl : alookup l k2 with
  | none => simp [Option.orElse, alookup_cons, hne, alookup]
  | some w => simp [Option.orElse]

theorem getKey_removeKey_self (c : Compound) (k : String) :
    getKey (removeKey c k) k = none := alookup_aremove_self c k

theorem getKey_removeKey_ne (c : Compound) (k k2 : String) (h : k2 ≠ k) :
    getKey (removeKey c k) k2 = getKey c k2 := alookup_aremove_ne c k k2 h

theorem getKey_insertKey_self (c : Compound) (k : String) (v : JVal) :
    getKey (insertKey c k v) k = some v := alookup_ainsert_self c k v

theorem getKey_insertKey_ne (c : Compound) (k k2 : String) (v : JVal) (h : k2 ≠ k) :
    getKey (insertKey c k v) k2 = getKey c k2 := alookup_ainsert_ne c k k2 v h

/-! ## Claim C1: the record upgrader -/

/-- Claim C1: the record upgrader removes `DataVersion` (interpreted as an
unsigned 32-bit integer, with the default when absent); an id unknown to the
catalog or a record version above the target yields `false` with no converter
call and no insertion; otherwise the converter runs on the stripped record
with (from_id, to_id), `DataVersion = to_version` is stamped and the result
is `true`, so every successfully upgraded record carries the target version. -/
theorem upgrade_record_spec (catalog : Catalog) (convert : Converter)
    (data : Compound) (toVersion defaultVersion : Nat) :
    (catalog (interpDataVersion (getKey data "DataVersion") defaultVersion) = none →
      upgradeRecord catalog convert data toVersion defaultVersion =
        ⟨false, removeKey data "DataVersion", none⟩) ∧
    (∀ e, catalog (interpDataVersion (getKey data "DataVersion") defaultVersion) = some e →
      toVersion < e.dataVersion →
      upgradeRecord catalog convert data toVersion defaultVersion =
        ⟨false, removeKey data "DataVersion", none⟩) ∧
    (∀ e, catalog (interpDataVersion (getKey data "DataVersion") defaultVersion) = some e →
      e.dataVersion ≤ toVersion →
      upgradeRecord catalog convert data toVersion defaultVersion =
        ⟨true,
          insertKey (convert e.dataVersion toVersion (removeKey data "DataVersion"))
            "DataVersion" (JVal.vint (i32ofU32 toVersion)),
          some (e.dataVersion, toVersion)⟩) ∧
    ((upgradeRecord catalog convert data toVersion defaultVersion).ok = true →
      getKey (upgradeRecord catalog convert data toVersion defaultVersion).data
        "DataVersion" = some (JVal.vint (i32ofU32 toVersion))) := by
  refine ⟨?_, ?_, ?_, ?_⟩
  · intro h
    simp [upgradeRecord, h]
  · intro e he hgt
    simp [upgradeRecord, he, hgt]
  · intro e he hle
    simp [upgradeRecord, he, Nat.not_lt.mpr hle]
  · intro hok
    unfold upgradeRecord at hok ⊢
    cases hc : catalog (interpDataVersion (getKey data "DataVersion") defaultVersion) with
    | none => simp [hc] at hok
    | some e =>
      by_cases hlt : toVersion < e.dataVersion
      · simp [hc, hlt] at hok
      · simp [hc, hlt, getKey_insertKey_self]

/-! ## Filesystem model: saved-data folders and effect events

A `data/` folder is an association list from file stem (the name without
`.dat`) to parsed content; `none` content models a file that exists but
fails to parse.  Every upgrader also returns the list of effects it
performed (log lines, attempted upgrades, writes, renames, deletions). -/

abbrev DatFile := Option Compound

abbrev DataFolder := List (String × DatFile)

def findFile (fs : DataFolder) (nm : String) : Option DatFile := alookup fs nm

def writeFileF (fs : DataFolder) (nm : String) (c : Compound) : DataFolder :=
  ainsert fs nm (some c)

def deleteFileF (fs : DataFolder) (nm : String) : DataFolder := aremove fs nm

inductive Ev : Type where
  | attempt (nm : String)
  | logged (tag : String)
  | wroteDat (nm : String) (c : Compound)
  | wroteLevel (c : Compound)
  | wroteFile (path : String)
  | renamed (src dst : String)
  | deletedFile (nm : String)
  | createdDir (nm : String)
  | wroteChunk (x z : Int) (c : Compound)
  | wroteEntityChunk (x z : Int) (c : Compound)
  | upgradeCall (target dflt : Nat)
  | backfillCall
  | secondUpgradeOn (c : Compound)

/-- The events that change the filesystem (as opposed to logging,
reading and in-memory conversion). -/
def Ev.isMutation : Ev → Bool
  | Ev.wroteDat _ _ => true
  | Ev.wroteLevel _ => true
  | Ev.wroteFile _ => true
  | Ev.renamed _ _ => true
  | Ev.deletedFile _ => true
  | Ev.createdDir _ => true
  | Ev.wroteChunk _ _ _ => true
  | Ev.wroteEntityChunk _ _ _ => true
  | _ => false

def advancementsAndStatsVersion : Nat := 1343

def lastMonolithVersion : Nat := 1493

def firstRaidsVersion : Nat := 1912

def separateEntitiesVersion : Nat := 2681

def netherRaidsRename : Nat := 2972

/-- `upgrade_data` from data.rs: read `<nm>.dat` (a missing file is a
silent skip, an unparseable one an error), record-upgrade with default
version 99, and rewrite the file unless dry-run. -/
def upgradeData (catalog : Catalog) (convert : Converter) (fs : DataFolder)
    (nm : String) (toVersion : Nat) (dryRun : Bool) : DataFolder × List Ev :=
  match findFile fs nm with
  | none => (fs, [Ev.attempt nm])
  | some none => (fs, [Ev.attempt nm, Ev.logged "read_error"])
  | some (some data) =>
    let r := upgradeRecord catalog convert data toVersion 99
    if r.ok = false then (fs, [Ev.attempt nm, Ev.logged "upgrade_failed"])
    else if dryRun then (fs, [Ev.attempt nm])
    else (writeFileF fs nm r.data, [Ev.attempt nm, Ev.wroteDat nm r.data])

/-- The loop bound `0..=map_count` of an i32 map count (empty when
negative). -/
def mapIds (mapCount : Int) : List Nat :=
  if mapCount < 0 then [] else List.range (mapCount.toNat + 1)

/-- `upgrade_map_data` from data.rs: read `idcounts.dat` (without
upgrading it), read its `map` field, and upgrade `map_0.dat` through
`map_<map>.dat`. -/
def upgradeMapData (catalog : Catalog) (convert : Converter) (fs : DataFolder)
    (toVersion : Nat) (dryRun : Bool) : DataFolder × List Ev :=
  match findFile fs "idcounts" with
  | none => (fs, [])
  | some none => (fs, [Ev.logged "read_error"])
  | some (some idcounts) =>
    match (getKey idcounts "map").bind asI32 with
    | none => (fs, [])
    | some mapCount =>
      (mapIds mapCount).foldl
        (fun acc i =>
          let r := upgradeData catalog convert acc.1 ("map_" ++ toString i)
            toVersion dryRun
          (r.1, acc.2 ++ r.2))
        (fs, [])

/-- `upgrade_raids` from dimensions.rs over the dimension's data folder.
The rename syscall's outcome is explicit: it fails with NotFound exactly
when the source stem is absent, and `renameOtherError` injects any other
rename failure. -/
def upgradeRaids (catalog : Catalog) (convert : Converter) (dimId : String)
    (fs : DataFolder) (toVersion : Nat) (dryRun renameOtherError : Bool) :
    DataFolder × List Ev :=
  if toVersion < firstRaidsVersion then (fs, [])
  else
    let step : DataFolder × List Ev × Bool :=
      if netherRaidsRename ≤ toVersion ∧ dimId = "minecraft:the_nether" then
        match findFile fs "raids" with
        | some _ => (fs, [], false)
        | none =>
          if dryRun then
            let r := upgradeData catalog convert fs "raids_nether" toVersion dryRun
            (r.1, r.2, false)
          else if renameOtherError then (fs, [Ev.logged "rename_error"], true)
          else
            match findFile fs "raids_nether" with
            | none => (fs, [], true)
            | some f =>
              (deleteFileF fs "raids_nether" ++ [("raids", f)],
                [Ev.renamed "raids_nether" "raids"], false)
      else (fs, [], false)
    if step.2.2 then (step.1, step.2.1)
    else
      let nm := if dimId = "minecraft:the_end" then "raids_end"
        else if toVersion < netherRaidsRename ∧ dimId = "minecraft:the_nether" then
          "raids_nether"
        else "raids"
      let r := upgradeData catalog convert step.1 nm toVersion dryRun
      (r.1, step.2.1 ++ r.2)

/-- The legacy monolithic structure stems deleted at the end of a run
(overworld, nether and end keys). -/
def legacyDatKeys : List String :=
  ["Monument", "Stronghold", "Village", "Mineshaft", "Temple", "Mansion",
    "Fortress", "EndCity"]

def deleteLegacyDatFiles (fs : DataFolder) : DataFolder × List Ev :=
  legacyDatKeys.foldl
    (fun acc k => (deleteFileF acc.1 k, acc.2 ++ [Ev.deletedFile k])) (fs, [])

/-- The `if !dry_run { delete_legacy_dat_files(world) }` step at the end of
`upgrade_dimensions`. -/
def deleteLegacyStep (dryRun : Bool) (fs : DataFolder) : DataFolder × List Ev :=
  if dryRun then (fs, []) else deleteLegacyDatFiles fs

/-! ## level.dat (individual_files.rs) -/

def oldSettingsKeys : List String :=
  ["RandomSeed", "generatorName", "generatorOptions", "generatorVersion",
    "legacy_custom_options", "MapFeatures", "BonusChest"]

/-- What `update_data` does after the level conversion: stamp the target
version, and for targets at or past 2554 move the seven legacy generator
keys into `WorldGenSettings` and convert it. -/
def updateDataTail (convertWGS : Converter) (fromV toV : Nat) (d2 : Compound) :
    Compound :=
  let d3 := insertKey d2 "DataVersion" (JVal.vint (i32ofU32 toV))
  if 2554 ≤ toV then
    let old := oldSettingsKeys.filterMap
      (fun k => (getKey d3 k).map (fun v => (k, v)))
    let d4 := oldSettingsKeys.foldl (fun d k => removeKey d k) d3
    let wgs0 := (asComp (getKey d4 "WorldGenSettings")).getD []
    let wgs1 := old.foldl (fun w kv => insertKey w kv.1 kv.2) wgs0
    let wgs2 := convertWGS fromV toV wgs1
    insertKey d4 "WorldGenSettings" (JVal.vcomp wgs2)
  else d3

/-- `update_data` inside `upgrade_level_dat`: drop `Player`, convert the
`Data` compound, then stamp and relocate via `updateDataTail`. -/
def updateData (convertLevel convertWGS : Converter) (fromV toV : Nat)
    (data : Compound) : Compound :=
  updateDataTail convertWGS fromV toV
    (convertLevel fromV toV (removeKey data "Player"))

/-- `upgrade_level_dat`: the input is the parsed level.dat root (`none`
models an unreadable or undecodable file); the result is the `Data` copy
handed to dimension discovery plus the effect events.  On the downgrade
path the file is not written and the returned copy is advanced to the
catalog's latest version. -/
def upgradeLevelDat (catalog : Catalog) (convertLevel convertWGS : Converter)
    (latestVersion : Nat) (file : Option Compound) (toVersion : Nat)
    (dryRun : Bool) : Option Compound × List Ev :=
  match file with
  | none => (none, [Ev.logged "read_error"])
  | some levelDat =>
    match asComp (getKey levelDat "Data") with
    | none => (none, [Ev.logged "missing_data"])
    | some data =>
      let dv := interpDataVersion (getKey data "DataVersion") 99
      let data1 := removeKey data "DataVersion"
      match catalog dv with
      | none => (none, [Ev.logged "unknown_version"])
      | some entry =>
        if toVersion < entry.dataVersion then
          (some (updateData convertLevel convertWGS entry.dataVersion
            latestVersion data1), [Ev.logged "downgrade_warning"])
        else
          let d2 := updateData convertLevel convertWGS entry.dataVersion
            toVersion data1
          let levelDat2 := insertKey levelDat "Data" (JVal.vcomp d2)
          let wr : List Ev := if dryRun then [] else [Ev.wroteLevel levelDat2]
          (some (updateData convertLevel convertWGS toVersion latestVersion d2),
            wr)

/-- The per-file body shared by the `playerdata/` (binary, default 99) and
`advancements/`/`stats/` (JSON, default 1343) directory upgraders: decode,
record-upgrade, rewrite unless dry-run. -/
def upgradeDirFile (catalog : Catalog) (convert : Converter) (path : String)
    (file : Option Compound) (toVersion dflt : Nat) (dryRun : Bool) : List Ev :=
  match file with
  | none => [Ev.logged "read_error"]
  | some data =>
    let r := upgradeRecord catalog convert data toVersion dflt
    if r.ok = false then [Ev.logged "upgrade_failed"]
    else if dryRun then []
    else [Ev.wroteFile path]

/-! ## Legacy monolithic structure data (region/chunk.rs) -/

/-- `static_string_map! CURRENT_TO_LEGACY_MAP`. -/
def currentToLegacyList : List (String × String) :=
  [("Village", "Village"), ("Mineshaft", "Mineshaft"), ("Mansion", "Mansion"),
    ("Igloo", "Temple"), ("Desert_Pyramid", "Temple"),
    ("Jungle_Pyramid", "Temple"), ("Swamp_Hut", "Temple"),
    ("Stronghold", "Stronghold"), ("Monument", "Monument"),
    ("Fortress", "Fortress"), ("EndCity", "EndCity")]

def currentToLegacy (k : String) : Option String := alookup currentToLegacyList k

/-- `static_string_set! OLD_STRUCTURE_REGISTRY_KEYS` (18 names). -/
def oldStructureRegistryKeys : List String :=
  ["pillager_outpost", "mineshaft", "mansion", "jungle_pyramid",
    "desert_pyramid", "igloo", "ruined_portal", "shipwreck", "swamp_hut",
    "stronghold", "monument", "ocean_ruin", "fortress", "endcity",
    "buried_treasure", "village", "nether_fossil", "bastion_remnant"]

/-- `to_ascii_lowercase`. -/
def asciiLower (s : String) : String := String.mk (s.data.map Char.toLower)

/-- `StructureFeatureIndexSavedData`: the `all` and `remaining` chunk
coordinate sets (modelled as lists; only membership matters). -/
structure FeatureIndex where
  allSet : List (Int × Int)
  remainingSet : List (Int × Int)

/-- `LegacyStructureDataHandler`'s populated state. -/
structure Handler where
  hasLegacyData : Bool
  dataMap : List (String × List ((Int × Int) × Compound))
  indexMap : List (String × FeatureIndex)
  currentKeys : List String

/-- Packing a chunk coordinate pair as in `update_from_legacy`:
`((x as u32 as u64) | (z as u32 as u64) << 32) as i64`. -/
def packPos (x z : Int) : Int := i64ofU64 (toU32 x + 2 ^ 32 * toU32 z)

/-- Decoding a packed long as in `StructureFeatureIndexSavedData::load`:
x from the low 32 bits, z from the high 32 bits, each as `u32 as i32`. -/
def decodePos (v : Int) : Int × Int :=
  let u := (v % (2 ^ 64 : Int)).toNat
  (i32ofU32 (u % 2 ^ 32), i32ofU32 (u / 2 ^ 32))

/-- The decode half of `StructureFeatureIndexSavedData::load`, applied to
the upgraded index compound's `All` and `Remaining` long-arrays. -/
def loadIndexFromData (d : Compound) : FeatureIndex :=
  ⟨((asLongs (getKey d "All")).getD []).map decodePos,
    ((asLongs (getKey d "Remaining")).getD []).map decodePos⟩

/-- `has_legacy_start`: legacy data present, the current key populated in
`data_map`, and the coordinate in the legacy key's `all` set.  (The Rust
code unwraps the two lookups after the `data_map` check; a missing index
entry, which would panic there, is modelled as `false`.) -/
def hasLegacyStart (h : Handler) (x z : Int) (k : String) : Bool :=
  h.hasLegacyData && (alookup h.dataMap k).isSome &&
    (match (currentToLegacy k).bind (alookup h.indexMap) with
      | some idx => idx.allSet.contains (x, z)
      | none => false)

/-- `is_unhandled_structure_start`. -/
def isUnhandledStructureStart (h : Handler) (x z : Int) : Bool :=
  h.hasLegacyData && h.currentKeys.any (fun k =>
    (alookup h.dataMap k).isSome &&
      (match (currentToLegacy k).bind (alookup h.indexMap) with
        | some idx => idx.remainingSet.contains (x, z)
        | none => false))

/-- `update_structure_start`: for each populated current key whose legacy
index still lists this chunk as remaining, copy the feature into
`Structures.Starts`. -/
def updateStructureStart (h : Handler) (structures : Compound) (cx cz : Int) :
    Compound :=
  let starts0 := match getKey structures "Starts" with
    | some (JVal.vcomp s) => s
    | _ => []
  let starts1 := h.currentKeys.foldl
    (fun st k =>
      match alookup h.dataMap k with
      | some dm =>
        if (match (currentToLegacy k).bind (alookup h.indexMap) with
            | some idx => idx.remainingSet.contains (cx, cz)
            | none => false) then
          match alookup dm (cx, cz) with
          | some d => insertKey st k (JVal.vcomp d)
          | none => st
        else st
      | none => st)
    starts0
  insertKey structures "Starts" (JVal.vcomp starts1)

/-- The 17x17 chunk square centred on (cx, cz), x outer and z inner, as the
two nested `for` loops iterate it. -/
def squareList (cx cz : Int) : List (Int × Int) :=
  ((List.range 17).map (fun i : Nat =>
    (List.range 17).map (fun j : Nat =>
      (cx - 8 + (i : Int), cz - 8 + (j : Int))))).flatten

/-- The long-array built for `Structures.References[k]`. -/
def packedStarts (h : Handler) (cx cz : Int) (k : String) : List Int :=
  ((squareList cx cz).filter (fun p => hasLegacyStart h p.1 p.2 k)).map
    (fun p => packPos p.1 p.2)

def isLongArr : Option JVal → Bool
  | some (JVal.vlongArr _) => true
  | _ => false

/-- One iteration of the `References` loop of `update_from_legacy`. -/
def refStep (h : Handler) (cx cz : Int) (refs : Compound) (k : String) :
    Compound :=
  if isLongArr (getKey refs k) = false ∧
      oldStructureRegistryKeys.contains (asciiLower k) = true then
    insertKey refs k (JVal.vlongArr (packedStarts h cx cz k))
  else refs

def buildReferences (h : Handler) (cx cz : Int) (refs : Compound) : Compound :=
  h.currentKeys.foldl (refStep h cx cz) refs

/-- `LegacyStructureDataHandler::update_from_legacy`. -/
def updateFromLegacy (h : Handler) (chunk : Compound) : Compound :=
  match asComp (getKey chunk "Level") with
  | some level =>
    let cx := ((getKey level "xPos").bind asI32).getD 0
    let cz := ((getKey level "zPos").bind asI32).getD 0
    let structures0 := (asComp (getKey level "Structures")).getD []
    let structures1 :=
      if isUnhandledStructureStart h cx cz then
        updateStructureStart h structures0 cx cz
      else structures0
    let references0 := (asComp (getKey structures1 "References")).getD []
    let references1 := buildReferences h cx cz references0
    let structures2 := insertKey structures1 "References" (JVal.vcomp references1)
    insertKey chunk "Level"
      (JVal.vcomp (insertKey level "Structures" (JVal.vcomp structures2)))
  | none => chunk

/-- `update_chunk_from_legacy`: run the handler's back-fill only when the
chunk's `Level.hasLegacyStructureData` flag is set and a handler exists for
the dimension. -/
def updateChunkFromLegacy (handler : Option Handler) (chunk : Compound) :
    Compound :=
  match asComp (getKey chunk "Level") with
  | some level =>
    if ((getKey level "hasLegacyStructureData").bind asBool).getD false then
      match handler with
      | some h => updateFromLegacy h chunk
      | none => chunk
    else chunk
  | none => chunk

/-! ## The chunk pipeline hook (region/chunk.rs, `upgrade_chunks`) -/

structure HookResult where
  ok : Bool
  chunk : Compound
  events : List Ev

/-- The entity-extraction block at the end of the chunk hook, run when the
conversion crossed the entity-separation boundary outside dry-run.  The
entity region write's failure is the explicit `fails` flag; the returned
event list is the block's own effects. -/
def extractEntities (fails : Bool) (cx cz : Int) (c : Compound) :
    Bool × Compound × List Ev :=
  match asComp (getKey c "Level") with
  | some level =>
    match asStr (getKey level "Status") with
    | some s =>
      if s = "full" ∨ s = "minecraft:full" then
        match getKey level "Entities" with
        | some ents =>
          let c2 := insertKey c "Level" (JVal.vcomp (removeKey level "Entities"))
          if fails then (false, c2, [Ev.logged "entity_write_error"])
          else (true, c2, [Ev.wroteEntityChunk cx cz [("Entities", ents)]])
        | none => (true, c, [])
      else (true, c, [])
    | none => (true, c, [])
  | none =>
    match asStr (getKey c "Status") with
    | some s =>
      if s = "full" ∨ s = "minecraft:full" then
        match getKey c "entities" with
        | some ents =>
          let c2 := removeKey c "entities"
          if fails then (false, c2, [Ev.logged "entity_write_error"])
          else (true, c2, [Ev.wroteEntityChunk cx cz [("Entities", ents)]])
        | none => (true, c, [])
      else (true, c, [])
    | none => (true, c, [])

/-- The `__context` child inserted around the main conversion. -/
def ctxVal (dimId genType : String) : JVal :=
  JVal.vcomp [("dimension", JVal.vstr dimId), ("generator", JVal.vstr genType)]

/-- The second phase of the chunk hook: insert the transient `__context`
child, record-upgrade to the target, scrub `__context`, and extract
entities when crossing the separation boundary. `version` is the chunk's
pre-conversion version; the returned events are the phase's own. -/
def hookPhase2 (catalog : Catalog) (convert : Converter)
    (dimId genType : String) (toVersion : Nat)
    (dryRun entityWriteFails : Bool) (cx cz : Int) (version : Nat)
    (c1 : Compound) : Bool × Compound × List Ev :=
  let c2 := insertKey c1 "__context" (ctxVal dimId genType)
  let r2 := upgradeRecord catalog convert c2 toVersion 99
  let base := [Ev.secondUpgradeOn c2, Ev.upgradeCall toVersion 99]
  if r2.ok = false then (false, r2.data, base)
  else
    let c3 := removeKey r2.data "__context"
    if dryRun = false ∧ version < separateEntitiesVersion ∧
        separateEntitiesVersion ≤ toVersion then
      let r := extractEntities entityWriteFails cx cz c3
      (r.1, r.2.1, base ++ r.2.2)
    else (true, c3, base)

/-- The per-chunk hook of `upgrade_chunks`: chunks older than the last
monolithic-structure version are first driven to `min(1493, target)` and
back-filled from the legacy handler before the main conversion. -/
def chunkHook (catalog : Catalog) (convert : Converter)
    (dimId genType : String) (handler : Option Handler) (toVersion : Nat)
    (dryRun entityWriteFails : Bool) (cx cz : Int) (chunk : Compound) :
    HookResult :=
  let version := interpDataVersion (getKey chunk "DataVersion") 99
  if version < lastMonolithVersion then
    let r1 := upgradeRecord catalog convert chunk
      (min lastMonolithVersion toVersion) 99
    let ev1 := [Ev.upgradeCall (min lastMonolithVersion toVersion) 99]
    if r1.ok = false then ⟨false, r1.data, ev1⟩
    else if toVersion < lastMonolithVersion then ⟨true, r1.data, ev1⟩
    else
      let c1 := updateChunkFromLegacy handler r1.data
      let r := hookPhase2 catalog convert dimId genType toVersion dryRun
        entityWriteFails cx cz version c1
      ⟨r.1, r.2.1, (ev1 ++ [Ev.backfillCall]) ++ r.2.2⟩
  else
    let r := hookPhase2 catalog convert dimId genType toVersion dryRun
      entityWriteFails cx cz version chunk
    ⟨r.1, r.2.1, r.2.2⟩

/-! ## The region-folder driver (region/mod.rs, `upgrade_regions`) -/

abbrev RegionData := List ((Int × Int) × Compound)

/-- One chunk's contribution to the region driver's event log. -/
def regionStep (dryRun : Bool) (hook : Int → Int → Compound → HookResult)
    (evs : List Ev) (cp : (Int × Int) × Compound) : List Ev :=
  evs ++ (hook cp.1.1 cp.1.2 cp.2).events ++
    (if (hook cp.1.1 cp.1.2 cp.2).ok && !dryRun then
      [Ev.wroteChunk cp.1.1 cp.1.2 (hook cp.1.1 cp.1.2 cp.2).chunk]
    else [])

/-- The per-chunk write-back discipline of `upgrade_regions`: each chunk is
read, handed to the hook, and written back only when the hook returns true
and the run is not dry. -/
def processRegion (dryRun : Bool) (hook : Int → Int → Compound → HookResult)
    (regions : RegionData) : RegionData × List Ev :=
  (regions.map (fun cp =>
      if (hook cp.1.1 cp.1.2 cp.2).ok && !dryRun then
        (cp.1, (hook cp.1.1 cp.1.2 cp.2).chunk)
      else cp),
    regions.foldl (regionStep dryRun hook) [])

/-- `upgrade_chunks`: create the `entities/` folder when the target has
separate entities and the run is not dry, then drive every chunk of the
`region/` folder through the hook. -/
def upgradeChunksModel (catalog : Catalog) (convert : Converter)
    (dimId genType : String) (handler : Option Handler) (toVersion : Nat)
    (dryRun entityWriteFails : Bool) (regions : RegionData) :
    RegionData × List Ev :=
  let dirEv : List Ev :=
    if dryRun = false ∧ separateEntitiesVersion ≤ toVersion then
      [Ev.createdDir "entities"]
    else []
  let r := processRegion dryRun
    (fun cx cz c => chunkHook catalog convert dimId genType handler toVersion
      dryRun entityWriteFails cx cz c)
    regions
  (r.1, dirEv ++ r.2)

/-! ## Helper lemmas on the file-level upgraders -/

theorem getKey_foldl_removeKey (keys : List String) (k : String)
    (h : k ∉ keys) :
    ∀ c : Compound,
      getKey (keys.foldl (fun d kk => removeKey d kk) c) k = getKey c k := by
  induction keys with
  | nil => intro c; rfl
  | cons hd tl ih =>
    intro c
    rw [List.foldl_cons, ih (fun hm => h (List.mem_cons_of_mem _ hm)),
      getKey_removeKey_ne c hd k (fun he => h (he ▸ List.mem_cons_self hd tl))]

theorem getKey_updateDataTail_dv (cW : Converter) (f t : Nat) (d2 : Compound) :
    getKey (updateDataTail cW f t d2) "DataVersion" =
      some (JVal.vint (i32ofU32 t)) := by
  unfold updateDataTail
  by_cases h : 2554 ≤ t
  · rw [if_pos h, getKey_insertKey_ne _ _ _ _ (by decide),
      getKey_foldl_removeKey oldSettingsKeys "DataVersion" (by decide),
      getKey_insertKey_self]
  · rw [if_neg h, getKey_insertKey_self]

theorem getKey_updateDataTail_player (cW : Converter) (f t : Nat)
    (d2 : Compound) :
    getKey (updateDataTail cW f t d2) "Player" = getKey d2 "Player" := by
  unfold updateDataTail
  by_cases h : 2554 ≤ t
  · rw [if_pos h, getKey_insertKey_ne _ _ _ _ (by decide),
      getKey_foldl_removeKey oldSettingsKeys "Player" (by decide),
      getKey_insertKey_ne _ _ _ _ (by decide)]
  · rw [if_neg h, getKey_insertKey_ne _ _ _ _ (by decide)]

theorem getKey_updateData_dv (cL cW : Converter) (f t : Nat) (d : Compound) :
    getKey (updateData cL cW f t d) "DataVersion" =
      some (JVal.vint (i32ofU32 t)) := getKey_updateDataTail_dv cW f t _

theorem getKey_updateData_player (cL cW : Converter) (f t : Nat) (d : Compound)
    (hc : ∀ a b (c : Compound),
      getKey c "Player" = none → getKey (cL a b c) "Player" = none) :
    getKey (updateData cL cW f t d) "Player" = none := by
  rw [updateData, getKey_updateDataTail_player]
  exact hc f t _ (getKey_removeKey_self d "Player")

/-! ## Claim C10: the Player key is dropped from level.dat's Data -/

/-- Claim C10: both conversions of level.dat's `Data` compound (the copy
written to disk and the latest-advanced copy returned for dimension
discovery) remove the `Player` key before handing the compound to the level
converter, so, for any level converter that does not itself introduce a
`Player` key, neither the returned copy nor the persisted `Data` ever
contains `Player`. -/
theorem level_dat_player_removed (catalog : Catalog) (cL cW : Converter)
    (latest : Nat) (file : Option Compound) (toV : Nat) (dryRun : Bool) :
    (∀ f t (d : Compound), updateData cL cW f t d =
      updateDataTail cW f t (cL f t (removeKey d "Player"))) ∧
    ((∀ a b (c : Compound),
        getKey c "Player" = none → getKey (cL a b c) "Player" = none) →
      (∀ f t (d : Compound), getKey (updateData cL cW f t d) "Player" = none) ∧
      (∀ r, (upgradeLevelDat catalog cL cW latest file toV dryRun).1 = some r →
        getKey r "Player" = none) ∧
      (∀ ld2, Ev.wroteLevel ld2 ∈
          (upgradeLevelDat catalog cL cW latest file toV dryRun).2 →
        ∃ d2, getKey ld2 "Data" = some (JVal.vcomp d2) ∧
          getKey d2 "Player" = none)) := by
  refine ⟨fun f t d => rfl, fun hc =>
    ⟨fun f t d => getKey_updateData_player cL cW f t d hc, ?_, ?_⟩⟩
  · intro r heq
    cases file with
    | none => simp [upgradeLevelDat] at heq
    | some levelDat =>
      cases hdd : asComp (getKey levelDat "Data") with
      | none => simp [upgradeLevelDat, hdd] at heq
      | some data =>
        simp only [upgradeLevelDat, hdd] at heq
        cases hcat : catalog (interpDataVersion (getKey data "DataVersion") 99) with
        | none => simp [hcat] at heq
        | some entry =>
          simp only [hcat] at heq
          by_cases hlt : toV < entry.dataVersion
          · rw [if_pos hlt] at heq
            simp only [Option.some.injEq] at heq
            rw [← heq]
            exact getKey_updateData_player cL cW _ _ _ hc
          · rw [if_neg hlt] at heq
            simp only [Option.some.injEq] at heq
            rw [← heq]
            exact getKey_updateData_player cL cW _ _ _ hc
  · intro ld2 hmem
    cases file with
    | none => simp [upgradeLevelDat] at hmem
    | some levelDat =>
      cases hdd : asComp (getKey levelDat "Data") with
      | none => simp [upgradeLevelDat, hdd] at hmem
      | some data =>
        simp only [upgradeLevelDat, hdd] at hmem
        cases hcat : catalog (interpDataVersion (getKey data "DataVersion") 99) with
        | none => simp [hcat] at hmem
        | some entry =>
          simp only [hcat] at hmem
          by_cases hlt : toV < entry.dataVersion
          · rw [if_pos hlt] at hmem
            simp at hmem
          · rw [if_neg hlt] at hmem
            simp only at hmem
            by_cases hdry : dryRun
            · rw [if_pos hdry] at hmem
              simp at hmem
            · rw [if_neg hdry] at hmem
              simp only [List.mem_singleton, Ev.wroteLevel.injEq] at hmem
              rw [hmem]
              exact ⟨updateData cL cW entry.dataVersion toV
                  (removeKey data "DataVersion"), getKey_insertKey_self _ _ _,
                getKey_updateData_player cL cW _ _ _ hc⟩

/-! ## Claim C7: level.dat above the target -/

/-- Claim C7: when level.dat's `Data.DataVersion` exceeds the target,
`upgrade_level_dat` logs a warning, performs no write (its only effect is
the warning, so the on-disk file is unchanged), and still returns a copy of
the `Data` compound advanced to the catalog's latest known version (its
`DataVersion` is stamped to `latest`), so dimension discovery proceeds. -/
theorem level_dat_downgrade_keeps_disk (catalog : Catalog) (cL cW : Converter)
    (latest : Nat) (file : Option Compound) (toV : Nat) (dryRun : Bool) :
    (∀ levelDat data entry,
      file = some levelDat →
      asComp (getKey levelDat "Data") = some data →
      catalog (interpDataVersion (getKey data "DataVersion") 99) = some entry →
      toV < entry.dataVersion →
      upgradeLevelDat catalog cL cW latest file toV dryRun =
        (some (updateData cL cW entry.dataVersion latest
          (removeKey data "DataVersion")), [Ev.logged "downgrade_warning"]) ∧
      (∀ e, e ∈ (upgradeLevelDat catalog cL cW latest file toV dryRun).2 →
        e.isMutation = false)) ∧
    (∀ f t (d : Compound), getKey (updateData cL cW f t d) "DataVersion" =
      some (JVal.vint (i32ofU32 t))) := by
  constructor
  · intro levelDat data entry hf hdd hcat hgt
    subst hf
    have heq : upgradeLevelDat catalog cL cW latest (some levelDat) toV dryRun =
        (some (updateData cL cW entry.dataVersion latest
          (removeKey data "DataVersion")), [Ev.logged "downgrade_warning"]) := by
      simp only [upgradeLevelDat, hdd, hcat, if_pos hgt]
    refine ⟨heq, ?_⟩
    rw [heq]
    intro e he
    simp only [List.mem_singleton] at he
    rw [he]
    rfl
  · intro f t d
    exact getKey_updateData_dv cL cW f t d

/-! ## Claim C2: map data -/

theorem mapName_ne_idcounts (s : String) : ("map_" ++ s) ≠ "idcounts" := by
  intro h
  have h2 : ("map_" ++ s).data = "idcounts".data := congrArg String.data h
  rw [String.data_append] at h2
  have h3 : some 'm' = some 'i' := congrArg (fun l => l.head?) h2
  simp at h3

theorem upgradeData_missing (catalog : Catalog) (convert : Converter)
    (fs : DataFolder) (nm : String) (toVersion : Nat) (dryRun : Bool)
    (h : findFile fs nm = none) :
    upgradeData catalog convert fs nm toVersion dryRun = (fs, [Ev.attempt nm]) := by
  simp only [upgradeData, h]

theorem upgradeData_fst_preserves (catalog : Catalog) (convert : Converter)
    (fs : DataFolder) (nm : String) (toVersion : Nat) (dryRun : Bool)
    (other : String) (h : other ≠ nm) :
    findFile (upgradeData catalog convert fs nm toVersion dryRun).1 other =
      findFile fs other := by
  unfold upgradeData
  cases hf : findFile fs nm with
  | none => rfl
  | some f =>
    cases f with
    | none => rfl
    | some data =>
      simp only
      by_cases hok : (upgradeRecord catalog convert data toVersion 99).ok = false
      · rw [if_pos hok]
      · rw [if_neg hok]
        by_cases hdry : dryRun
        · rw [if_pos hdry]
        · rw [if_neg hdry]
          exact alookup_ainsert_ne fs nm other _ h

theorem upgradeData_attempt_head (catalog : Catalog) (convert : Converter)
    (fs : DataFolder) (nm : String) (toVersion : Nat) (dryRun : Bool) :
    ∃ tl, (upgradeData catalog convert fs nm toVersion dryRun).2 =
      Ev.attempt nm :: tl := by
  unfold upgradeData
  cases hf : findFile fs nm with
  | none => exact ⟨[], rfl⟩
  | some f =>
    cases f with
    | none => exact ⟨[Ev.logged "read_error"], rfl⟩
    | some data =>
      simp only
      by_cases hok : (upgradeRecord catalog convert data toVersion 99).ok = false
      · rw [if_pos hok]; exact ⟨[Ev.logged "upgrade_failed"], rfl⟩
      · rw [if_neg hok]
        by_cases hdry : dryRun
        · rw [if_pos hdry]; exact ⟨[], rfl⟩
        · rw [if_neg hdry]
          exact ⟨[Ev.wroteDat nm (upgradeRecord catalog convert data toVersion 99).data], rfl⟩

theorem upgradeData_wroteDat_shape (catalog : Catalog) (convert : Converter)
    (fs : DataFolder) (nm : String) (toVersion : Nat) (dryRun : Bool)
    (nm2 : String) (c : Compound)
    (h : Ev.wroteDat nm2 c ∈ (upgradeData catalog convert fs nm toVersion dryRun).2) :
    nm2 = nm := by
  unfold upgradeData at h
  cases hf : findFile fs nm with
  | none => rw [hf] at h; simp at h
  | some f =>
    cases f with
    | none => rw [hf] at h; simp at h
    | some data =>
      rw [hf] at h
      simp only at h
      by_cases hok : (upgradeRecord catalog convert data toVersion 99).ok = false
      · rw [if_pos hok] at h; simp at h
      · rw [if_neg hok] at h
        by_cases hdry : dryRun
        · rw [if_pos hdry] at h; simp at h
        · rw [if_neg hdry] at h
          simp at h
          exact h.1

/-- The fold at the heart of `upgrade_map_data`. -/
def mapFoldStep (catalog : Catalog) (convert : Converter) (toVersion : Nat)
    (dryRun : Bool) (acc : DataFolder × List Ev) (i : Nat) :
    DataFolder × List Ev :=
  let r := upgradeData catalog convert acc.1 ("map_" ++ toString i) toVersion dryRun
  (r.1, acc.2 ++ r.2)

theorem mapFoldStep_eq (catalog : Catalog) (convert : Converter)
    (toVersion : Nat) (dryRun : Bool) (fs : DataFolder) (evs : List Ev)
    (i : Nat) :
    mapFoldStep catalog convert toVersion dryRun (fs, evs) i =
      ((upgradeData catalog convert fs ("map_" ++ toString i) toVersion dryRun).1,
        evs ++ (upgradeData catalog convert fs ("map_" ++ toString i) toVersion
          dryRun).2) := rfl

theorem mapFold_preserves (catalog : Catalog) (convert : Converter)
    (toVersion : Nat) (dryRun : Bool) (other : String)
    (hother : ∀ i : Nat, other ≠ "map_" ++ toString i) :
    ∀ (l : List Nat) (fs : DataFolder) (evs : List Ev),
      findFile (l.foldl (mapFoldStep catalog convert toVersion dryRun) (fs, evs)).1
        other = findFile fs other := by
  intro l
  induction l with
  | nil => intro fs evs; rfl
  | cons i tl ih =>
    intro fs evs
    rw [List.foldl_cons, mapFoldStep_eq, ih]
    exact upgradeData_fst_preserves catalog convert fs _ toVersion dryRun other
      (hother i)

theorem mapFold_evs_mono (catalog : Catalog) (convert : Converter)
    (toVersion : Nat) (dryRun : Bool) :
    ∀ (l : List Nat) (fs : DataFolder) (evs : List Ev) (e : Ev), e ∈ evs →
      e ∈ (l.foldl (mapFoldStep catalog convert toVersion dryRun) (fs, evs)).2 := by
  intro l
  induction l with
  | nil => intro fs evs e he; exact he
  | cons i tl ih =>
    intro fs evs e he
    rw [List.foldl_cons, mapFoldStep_eq]
    exact ih _ _ e (List.mem_append_left _ he)

theorem mapFold_attempts (catalog : Catalog) (convert : Converter)
    (toVersion : Nat) (dryRun : Bool) :
    ∀ (l : List Nat) (fs : DataFolder) (evs : List Ev) (i : Nat), i ∈ l →
      Ev.attempt ("map_" ++ toString i) ∈
        (l.foldl (mapFoldStep catalog convert toVersion dryRun) (fs, evs)).2 := by
  intro l
  induction l with
  | nil => intro fs evs i hi; simp at hi
  | cons j tl ih =>
    intro fs evs i hi
    rw [List.foldl_cons]
    cases List.mem_cons.mp hi with
    | inl h =>
      subst h
      rw [mapFoldStep_eq]
      apply mapFold_evs_mono
      apply List.mem_append_right
      obtain ⟨tl2, htl2⟩ := upgradeData_attempt_head catalog convert fs
        ("map_" ++ toString i) toVersion dryRun
      rw [htl2]
      exact List.mem_cons_self _ _
    | inr h => exact ih _ _ i h

theorem mapFold_wroteDat (catalog : Catalog) (convert : Converter)
    (toVersion : Nat) (dryRun : Bool) :
    ∀ (l : List Nat) (fs : DataFolder) (evs : List Ev) (nm2 : String) (c : Compound),
      Ev.wroteDat nm2 c ∈
        (l.foldl (mapFoldStep catalog convert toVersion dryRun) (fs, evs)).2 →
      Ev.wroteDat nm2 c ∈ evs ∨ ∃ i, i ∈ l ∧ nm2 = "map_" ++ toString i := by
  intro l
  induction l with
  | nil => intro fs evs nm2 c h; exact Or.inl h
  | cons j tl ih =>
    intro fs evs nm2 c h
    rw [List.foldl_cons, mapFoldStep_eq] at h
    cases ih _ _ nm2 c h with
    | inl h2 =>
      cases List.mem_append.mp h2 with
      | inl h3 => exact Or.inl h3
      | inr h3 =>
        refine Or.inr ⟨j, List.mem_cons_self _ _, ?_⟩
        exact upgradeData_wroteDat_shape catalog convert fs _ toVersion dryRun
          nm2 c h3
    | inr h2 =>
      obtain ⟨i, hi, hnm⟩ := h2
      exact Or.inr ⟨i, List.mem_cons_of_mem _ hi, hnm⟩

/-- Claim C2 (amended): the map-data upgrader only reads `idcounts.dat`
(it neither record-upgrades nor rewrites it: its stored content is
untouched and no write of it occurs), reads its `map: int32` field (doing
nothing further when absent or non-numeric), then upgrades every
`map_<i>.dat` for `0 ≤ i ≤ map`, silently skipping files that do not
exist. -/
theorem map_data_spec (catalog : Catalog) (convert : Converter)
    (fs : DataFolder) (toVersion : Nat) (dryRun : Bool) :
    (findFile fs "idcounts" = none →
      upgradeMapData catalog convert fs toVersion dryRun = (fs, [])) ∧
    (∀ idc, findFile fs "idcounts" = some (some idc) →
      findFile (upgradeMapData catalog convert fs toVersion dryRun).1 "idcounts" =
        some (some idc)) ∧
    (∀ c, Ev.wroteDat "idcounts" c ∉
      (upgradeMapData catalog convert fs toVersion dryRun).2) ∧
    (∀ idc, findFile fs "idcounts" = some (some idc) →
      (getKey idc "map").bind asI32 = none →
      upgradeMapData catalog convert fs toVersion dryRun = (fs, [])) ∧
    (∀ idc mapCount, findFile fs "idcounts" = some (some idc) →
      (getKey idc "map").bind asI32 = some mapCount →
      ∀ i : Nat, (i : Int) ≤ mapCount →
        Ev.attempt ("map_" ++ toString i) ∈
          (upgradeMapData catalog convert fs toVersion dryRun).2) ∧
    (∀ nm, findFile fs nm = none →
      upgradeData catalog convert fs nm toVersion dryRun = (fs, [Ev.attempt nm])) := by
  have hfold : ∀ idc mapCount, findFile fs "idcounts" = some (some idc) →
      (getKey idc "map").bind asI32 = some mapCount →
      upgradeMapData catalog convert fs toVersion dryRun =
        (mapIds mapCount).foldl (mapFoldStep catalog convert toVersion dryRun)
          (fs, []) := by
    intro idc mapCount h1 h2
    simp only [upgradeMapData, h1, h2]
    rfl
  refine ⟨?_, ?_, ?_, ?_, ?_, ?_⟩
  · intro h
    simp only [upgradeMapData, h]
  · intro idc h
    cases h2 : (getKey idc "map").bind asI32 with
    | none =>
      simp only [upgradeMapData, h, h2]
    | some mapCount =>
      rw [hfold idc mapCount h h2]
      rw [mapFold_preserves catalog convert toVersion dryRun "idcounts"
        (fun i => (mapName_ne_idcounts (toString i)).symm)]
      exact h
  · intro c hmem
    cases hf : findFile fs "idcounts" with
    | none =>
      simp only [upgradeMapData, hf] at hmem
      simp at hmem
    | some f =>
      cases f with
      | none =>
        simp only [upgradeMapData, hf] at hmem
        simp at hmem
      | some idc =>
        cases h2 : (getKey idc "map").bind asI32 with
        | none =>
          simp only [upgradeMapData, hf, h2] at hmem
          simp at hmem
        | some mapCount =>
          rw [hfold idc mapCount hf h2] at hmem
          cases mapFold_wroteDat catalog convert toVersion dryRun _ _ _ _ _ hmem with
          | inl h3 => simp at h3
          | inr h3 =>
            obtain ⟨i, _, hnm⟩ := h3
            exact mapName_ne_idcounts (toString i) hnm.symm
  · intro idc h1 h2
    simp only [upgradeMapData, h1, h2]
  · intro idc mapCount h1 h2 i hi
    rw [hfold idc mapCount h1 h2]
    apply mapFold_attempts
    unfold mapIds
    have hge : ¬ mapCount < 0 := by
      intro hneg
      have : (i : Int) < 0 := lt_of_le_of_lt hi hneg
      omega
    rw [if_neg hge]
    rw [List.mem_range]
    omega
  · intro nm h
    exact upgradeData_missing catalog convert fs nm toVersion dryRun h

/-- The concrete world for the C2 counterexample: an `idcounts.dat` at an
old data version with `map = 0`, and a `map_0.dat`. -/
def fsMapCex : DataFolder :=
  [("idcounts", some [("map", JVal.vint 0), ("DataVersion", JVal.vint 100)]),
    ("map_0", some [("DataVersion", JVal.vint 100)])]

/-- Claim C2 counterexample: running the map-data upgrader to target 3700
(not dry-run) leaves `idcounts.dat` bytes untouched, still carrying
`DataVersion = 100`, and the only write performed is of `map_0.dat`; the
claimed record-upgrade and rewrite of `idcounts.dat` itself never
happens. -/
theorem map_data_idcounts_not_upgraded_cex :
    findFile (upgradeMapData catAll convId fsMapCex 3700 false).1 "idcounts" =
      some (some [("map", JVal.vint 0), ("DataVersion", JVal.vint 100)]) ∧
    (upgradeMapData catAll convId fsMapCex 3700 false).2 =
      [Ev.attempt "map_0",
        Ev.wroteDat "map_0" [("DataVersion", JVal.vint 3700)]] := by
  constructor
  · rfl
  · rfl

/-! ## Claim C6: raids -/

/-- Claim C6: raids are skipped entirely below target 1912.  For the
nether at target 2972 or later outside dry-run, `raids_nether.dat` is
renamed to `raids.dat` only when the destination does not exist; a rename
failing with NotFound (absent source) is silent and still abandons the
raids upgrade, any other rename error is logged and abandons it.  The file
then upgraded is `raids_end` for the end, `raids_nether` for the nether
below 2972, and `raids` otherwise. -/
theorem raids_spec (catalog : Catalog) (convert : Converter) (dimId : String)
    (fs : DataFolder) (toVersion : Nat) (dryRun roe : Bool) :
    (toVersion < firstRaidsVersion →
      upgradeRaids catalog convert dimId fs toVersion dryRun roe = (fs, [])) ∧
    (dimId = "minecraft:the_end" → firstRaidsVersion ≤ toVersion →
      upgradeRaids catalog convert dimId fs toVersion dryRun roe =
        upgradeData catalog convert fs "raids_end" toVersion dryRun) ∧
    (dimId = "minecraft:the_nether" → firstRaidsVersion ≤ toVersion →
      toVersion < netherRaidsRename →
      upgradeRaids catalog convert dimId fs toVersion dryRun roe =
        upgradeData catalog convert fs "raids_nether" toVersion dryRun) ∧
    (dimId ≠ "minecraft:the_nether" → dimId ≠ "minecraft:the_end" →
      firstRaidsVersion ≤ toVersion →
      upgradeRaids catalog convert dimId fs toVersion dryRun roe =
        upgradeData catalog convert fs "raids" toVersion dryRun) ∧
    (∀ f, dimId = "minecraft:the_nether" → netherRaidsRename ≤ toVersion →
      dryRun = false → findFile fs "raids" = some f →
      upgradeRaids catalog convert dimId fs toVersion dryRun roe =
        upgradeData catalog convert fs "raids" toVersion false) ∧
    (dimId = "minecraft:the_nether" → netherRaidsRename ≤ toVersion →
      dryRun = false → findFile fs "raids" = none →
      findFile fs "raids_nether" = none → roe = false →
      upgradeRaids catalog convert dimId fs toVersion dryRun roe = (fs, [])) ∧
    (dimId = "minecraft:the_nether" → netherRaidsRename ≤ toVersion →
      dryRun = false → findFile fs "raids" = none → roe = true →
      upgradeRaids catalog convert dimId fs toVersion dryRun roe =
        (fs, [Ev.logged "rename_error"])) ∧
    (∀ f, dimId = "minecraft:the_nether" → netherRaidsRename ≤ toVersion →
      dryRun = false → findFile fs "raids" = none →
      findFile fs "raids_nether" = some f → roe = false →
      upgradeRaids catalog convert dimId fs toVersion dryRun roe =
        ((upgradeData catalog convert (deleteFileF fs "raids_nether" ++
            [("raids", f)]) "raids" toVersion false).1,
          Ev.renamed "raids_nether" "raids" ::
            (upgradeData catalog convert (deleteFileF fs "raids_nether" ++
              [("raids", f)]) "raids" toVersion false).2)) := by
  have h19 : firstRaidsVersion ≤ netherRaidsRename := by decide
  refine ⟨?_, ?_, ?_, ?_, ?_, ?_, ?_, ?_⟩
  · intro h
    simp [upgradeRaids, h]
  · intro h1 h2
    subst h1
    simp [upgradeRaids, Nat.not_lt.mpr h2]
  · intro h1 h2 h3
    subst h1
    simp [upgradeRaids, Nat.not_lt.mpr h2, h3, Nat.not_le.mpr h3]
  · intro h1 h2 h3
    simp [upgradeRaids, Nat.not_lt.mpr h3, h1, h2]
  · intro f h1 h2 h3 h4
    subst h1
    subst h3
    simp [upgradeRaids, Nat.not_lt.mpr (le_trans h19 h2), h2, h4,
      Nat.not_lt.mpr h2]
  · intro h1 h2 h3 h4 h5 h6
    subst h1
    subst h3
    subst h6
    simp [upgradeRaids, Nat.not_lt.mpr (le_trans h19 h2), h2, h4, h5]
  · intro h1 h2 h3 h4 h5
    subst h1
    subst h3
    subst h5
    simp [upgradeRaids, Nat.not_lt.mpr (le_trans h19 h2), h2, h4]
  · intro f h1 h2 h3 h4 h5 h6
    subst h1
    subst h3
    subst h6
    simp [upgradeRaids, Nat.not_lt.mpr (le_trans h19 h2), h2, h4, h5,
      Nat.not_lt.mpr h2]

/-! ## Helper lemmas on the chunk pipeline -/

theorem extractEntities_events_shape (fails : Bool) (cx cz : Int)
    (c : Compound) :
    ∀ e ∈ (extractEntities fails cx cz c).2.2,
      e = Ev.logged "entity_write_error" ∨
        ∃ x z cc, e = Ev.wroteEntityChunk x z cc := by
  intro e he
  unfold extractEntities at he
  repeat' split at he
  all_goals simp only [List.mem_singleton, List.not_mem_nil] at he
  all_goals
    first
      | exact he.elim
      | exact Or.inl he
      | exact Or.inr ⟨cx, cz, _, he⟩

theorem extractEntities_no_ctx (fails : Bool) (cx cz : Int) (c : Compound)
    (h : getKey c "__context" = none) :
    getKey (extractEntities fails cx cz c).2.1 "__context" = none := by
  unfold extractEntities
  repeat' split
  all_goals
    first
      | exact h
      | (rw [getKey_insertKey_ne _ _ _ _ (by decide)]; exact h)
      | (rw [getKey_removeKey_ne _ _ _ (by decide)]; exact h)

theorem hookPhase2_events_shape (catalog : Catalog) (convert : Converter)
    (dimId genType : String) (toVersion : Nat) (dryRun ewf : Bool)
    (cx cz : Int) (version : Nat) (c1 : Compound) :
    ∀ e ∈ (hookPhase2 catalog convert dimId genType toVersion dryRun ewf
        cx cz version c1).2.2,
      (∃ c2, e = Ev.secondUpgradeOn c2) ∨ e = Ev.upgradeCall toVersion 99 ∨
        e = Ev.logged "entity_write_error" ∨
        ∃ x z cc, e = Ev.wroteEntityChunk x z cc := by
  intro e he
  simp only [hookPhase2] at he
  split at he
  · simp only [List.mem_cons, List.mem_singleton, List.not_mem_nil,
      or_false] at he
    cases he with
    | inl h => exact Or.inl ⟨_, h⟩
    | inr h => exact Or.inr (Or.inl h)
  · split at he
    · cases List.mem_append.mp he with
      | inl h =>
        simp only [List.mem_cons, List.mem_singleton, List.not_mem_nil,
          or_false] at h
        cases h with
        | inl h2 => exact Or.inl ⟨_, h2⟩
        | inr h2 => exact Or.inr (Or.inl h2)
      | inr h =>
        cases extractEntities_events_shape ewf cx cz _ e h with
        | inl h2 => exact Or.inr (Or.inr (Or.inl h2))
        | inr h2 => exact Or.inr (Or.inr (Or.inr h2))
    · simp only [List.mem_cons, List.mem_singleton, List.not_mem_nil,
        or_false] at he
      cases he with
      | inl h => exact Or.inl ⟨_, h⟩
      | inr h => exact Or.inr (Or.inl h)

theorem hookPhase2_secondUpgradeOn_mem (catalog : Catalog)
    (convert : Converter) (dimId genType : String) (toVersion : Nat)
    (dryRun ewf : Bool) (cx cz : Int) (version : Nat) (c1 : Compound) :
    Ev.secondUpgradeOn (insertKey c1 "__context" (ctxVal dimId genType)) ∈
      (hookPhase2 catalog convert dimId genType toVersion dryRun ewf
        cx cz version c1).2.2 := by
  simp only [hookPhase2]
  split
  · exact List.mem_cons_self _ _
  · split
    · exact List.mem_append_left _ (List.mem_cons_self _ _)
    · exact List.mem_cons_self _ _

theorem hookPhase2_ok_no_ctx (catalog : Catalog) (convert : Converter)
    (dimId genType : String) (toVersion : Nat) (dryRun ewf : Bool)
    (cx cz : Int) (version : Nat) (c1 : Compound)
    (hok : (hookPhase2 catalog convert dimId genType toVersion dryRun ewf
      cx cz version c1).1 = true) :
    getKey (hookPhase2 catalog convert dimId genType toVersion dryRun ewf
      cx cz version c1).2.1 "__context" = none := by
  simp only [hookPhase2] at hok ⊢
  split at hok
  next h => simp at hok
  next h =>
    rw [if_neg h]
    split
    · exact extractEntities_no_ctx ewf cx cz _ (getKey_removeKey_self _ _)
    · exact getKey_removeKey_self _ _

theorem hookPhase2_dry_events (catalog : Catalog) (convert : Converter)
    (dimId genType : String) (toVersion : Nat) (ewf : Bool)
    (cx cz : Int) (version : Nat) (c1 : Compound) :
    (hookPhase2 catalog convert dimId genType toVersion true ewf
        cx cz version c1).2.2 =
      [Ev.secondUpgradeOn (insertKey c1 "__context" (ctxVal dimId genType)),
        Ev.upgradeCall toVersion 99] := by
  simp only [hookPhase2]
  split
  · rfl
  · rw [if_neg (fun hh => by simpa using hh.1)]

/-! ## Claim C3: the two-phase chunk conversion -/

/-- Claim C3: a chunk whose pre-conversion version v (default 99) is below
1493 is first record-upgraded to `min(1493, target)` with default 99; a
failed first upgrade makes the hook return false; when the target is below
1493 the hook then returns true with no further conversion; otherwise the
legacy back-fill runs and a second record-upgrade drives the chunk to the
final target.  Chunks at or past 1493 skip the first phase and the
back-fill entirely (their only record-upgrade targets the final version). -/
theorem chunk_two_phase_spec (catalog : Catalog) (convert : Converter)
    (dimId genType : String) (handler : Option Handler) (toVersion : Nat)
    (dryRun ewf : Bool) (cx cz : Int) (chunk : Compound) :
    (interpDataVersion (getKey chunk "DataVersion") 99 < lastMonolithVersion →
      (upgradeRecord catalog convert chunk (min lastMonolithVersion toVersion)
        99).ok = false →
      chunkHook catalog convert dimId genType handler toVersion dryRun ewf
        cx cz chunk =
        ⟨false, (upgradeRecord catalog convert chunk
            (min lastMonolithVersion toVersion) 99).data,
          [Ev.upgradeCall (min lastMonolithVersion toVersion) 99]⟩) ∧
    (interpDataVersion (getKey chunk "DataVersion") 99 < lastMonolithVersion →
      (upgradeRecord catalog convert chunk (min lastMonolithVersion toVersion)
        99).ok = true →
      toVersion < lastMonolithVersion →
      chunkHook catalog convert dimId genType handler toVersion dryRun ewf
        cx cz chunk =
        ⟨true, (upgradeRecord catalog convert chunk
            (min lastMonolithVersion toVersion) 99).data,
          [Ev.upgradeCall (min lastMonolithVersion toVersion) 99]⟩) ∧
    (interpDataVersion (getKey chunk "DataVersion") 99 < lastMonolithVersion →
      (upgradeRecord catalog convert chunk (min lastMonolithVersion toVersion)
        99).ok = true →
      lastMonolithVersion ≤ toVersion →
      chunkHook catalog convert dimId genType handler toVersion dryRun ewf
          cx cz chunk =
        ⟨(hookPhase2 catalog convert dimId genType toVersion dryRun ewf cx cz
            (interpDataVersion (getKey chunk "DataVersion") 99)
            (updateChunkFromLegacy handler (upgradeRecord catalog convert chunk
              (min lastMonolithVersion toVersion) 99).data)).1,
          (hookPhase2 catalog convert dimId genType toVersion dryRun ewf cx cz
            (interpDataVersion (getKey chunk "DataVersion") 99)
            (updateChunkFromLegacy handler (upgradeRecord catalog convert chunk
              (min lastMonolithVersion toVersion) 99).data)).2.1,
          [Ev.upgradeCall (min lastMonolithVersion toVersion) 99,
              Ev.backfillCall] ++
            (hookPhase2 catalog convert dimId genType toVersion dryRun ewf cx cz
              (interpDataVersion (getKey chunk "DataVersion") 99)
              (updateChunkFromLegacy handler (upgradeRecord catalog convert
                chunk (min lastMonolithVersion toVersion) 99).data)).2.2⟩ ∧
      Ev.backfillCall ∈ (chunkHook catalog convert dimId genType handler
        toVersion dryRun ewf cx cz chunk).events) ∧
    (lastMonolithVersion ≤ interpDataVersion (getKey chunk "DataVersion") 99 →
      chunkHook catalog convert dimId genType handler toVersion dryRun ewf
          cx cz chunk =
        ⟨(hookPhase2 catalog convert dimId genType toVersion dryRun ewf cx cz
            (interpDataVersion (getKey chunk "DataVersion") 99) chunk).1,
          (hookPhase2 catalog convert dimId genType toVersion dryRun ewf cx cz
            (interpDataVersion (getKey chunk "DataVersion") 99) chunk).2.1,
          (hookPhase2 catalog convert dimId genType toVersion dryRun ewf cx cz
            (interpDataVersion (getKey chunk "DataVersion") 99) chunk).2.2⟩ ∧
      Ev.backfillCall ∉ (chunkHook catalog convert dimId genType handler
        toVersion dryRun ewf cx cz chunk).events ∧
      (∀ t d, Ev.upgradeCall t d ∈ (chunkHook catalog convert dimId genType
          handler toVersion dryRun ewf cx cz chunk).events →
        t = toVersion ∧ d = 99)) := by
  refine ⟨?_, ?_, ?_, ?_⟩
  · intro hv hok
    simp only [chunkHook, if_pos hv, hok]
    rfl
  · intro hv hok hto
    simp only [chunkHook, if_pos hv, hok, if_pos hto]
    rfl
  · intro hv hok hto
    constructor
    · simp only [chunkHook, if_pos hv, hok, if_neg (Nat.not_lt.mpr hto)]
      rfl
    · simp only [chunkHook, if_pos hv, hok, if_neg (Nat.not_lt.mpr hto)]
      simp
  · intro hv
    have hcond : ¬ interpDataVersion (getKey chunk "DataVersion") 99 <
        lastMonolithVersion := Nat.not_lt.mpr hv
    refine ⟨by simp only [chunkHook, if_neg hcond], ?_, ?_⟩
    · simp only [chunkHook, if_neg hcond]
      intro hmem
      cases hookPhase2_events_shape catalog convert dimId genType toVersion
          dryRun ewf cx cz _ chunk _ hmem with
      | inl h => obtain ⟨c2, h⟩ := h; cases h
      | inr h =>
        cases h with
        | inl h => cases h
        | inr h =>
          cases h with
          | inl h => cases h
          | inr h => obtain ⟨x, z, cc, h⟩ := h; cases h
    · simp only [chunkHook, if_neg hcond]
      intro t d hmem
      cases hookPhase2_events_shape catalog convert dimId genType toVersion
          dryRun ewf cx cz _ chunk _ hmem with
      | inl h => obtain ⟨c2, h⟩ := h; cases h
      | inr h =>
        cases h with
        | inl h =>
          injection h with h1 h2
          exact ⟨h1, h2⟩
        | inr h =>
          cases h with
          | inl h => cases h
          | inr h => obtain ⟨x, z, cc, h⟩ := h; cases h

/-! ## Claim C4: the transient __context child -/

/-- Claim C4 (amended): whenever the hook reaches the final record-upgrade
(the chunk's version is at least 1493, or the target is at least 1493 and
the first-phase upgrade succeeded), a `__context` child map carrying
`dimension` and `generator` is inserted into the compound handed to that
final record-upgrade, and every chunk the hook reports successfully
upgraded after reaching that phase contains no `__context` key.  (On the
early path — version and target both below 1493 — no `__context` is
inserted and a pre-existing `__context` key survives.) -/
theorem context_scrub_amended (catalog : Catalog) (convert : Converter)
    (dimId genType : String) (handler : Option Handler) (toVersion : Nat)
    (dryRun ewf : Bool) (cx cz : Int) (chunk : Compound) :
    (interpDataVersion (getKey chunk "DataVersion") 99 < lastMonolithVersion →
      (upgradeRecord catalog convert chunk (min lastMonolithVersion toVersion)
        99).ok = true →
      lastMonolithVersion ≤ toVersion →
      ∃ c2, Ev.secondUpgradeOn c2 ∈ (chunkHook catalog convert dimId genType
          handler toVersion dryRun ewf cx cz chunk).events ∧
        getKey c2 "__context" = some (ctxVal dimId genType)) ∧
    (lastMonolithVersion ≤ interpDataVersion (getKey chunk "DataVersion") 99 →
      ∃ c2, Ev.secondUpgradeOn c2 ∈ (chunkHook catalog convert dimId genType
          handler toVersion dryRun ewf cx cz chunk).events ∧
        getKey c2 "__context" = some (ctxVal dimId genType)) ∧
    ((lastMonolithVersion ≤ interpDataVersion (getKey chunk "DataVersion") 99 ∨
        lastMonolithVersion ≤ toVersion) →
      (chunkHook catalog convert dimId genType handler toVersion dryRun ewf
        cx cz chunk).ok = true →
      getKey (chunkHook catalog convert dimId genType handler toVersion dryRun
        ewf cx cz chunk).chunk "__context" = none) := by
  refine ⟨?_, ?_, ?_⟩
  · intro hv hok hto
    simp only [chunkHook, if_pos hv, hok, if_neg (Nat.not_lt.mpr hto)]
    exact ⟨_, List.mem_append_right _
        (hookPhase2_secondUpgradeOn_mem catalog convert dimId genType toVersion
          dryRun ewf cx cz _ _),
      getKey_insertKey_self _ _ _⟩
  · intro hv
    simp only [chunkHook, if_neg (Nat.not_lt.mpr hv)]
    exact ⟨_, hookPhase2_secondUpgradeOn_mem catalog convert dimId genType
        toVersion dryRun ewf cx cz _ _,
      getKey_insertKey_self _ _ _⟩
  · intro hcase hok
    by_cases hv : interpDataVersion (getKey chunk "DataVersion") 99 <
        lastMonolithVersion
    · have hto : lastMonolithVersion ≤ toVersion := by
        cases hcase with
        | inl h => exact absurd hv (Nat.not_lt.mpr h)
        | inr h => exact h
      by_cases hok1 : (upgradeRecord catalog convert chunk
          (min lastMonolithVersion toVersion) 99).ok = false
      · simp only [chunkHook, if_pos hv, hok1] at hok
        simp at hok
      · simp only [Bool.not_eq_false] at hok1
        simp only [chunkHook, if_pos hv, hok1,
          if_neg (Nat.not_lt.mpr hto)] at hok ⊢
        exact hookPhase2_ok_no_ctx catalog convert dimId genType toVersion
          dryRun ewf cx cz _ _ hok
    · simp only [chunkHook, if_neg hv] at hok ⊢
      exact hookPhase2_ok_no_ctx catalog convert dimId genType toVersion
        dryRun ewf cx cz _ _ hok

/-- Claim C4 counterexample: a chunk at version 100 upgraded to target 1400
(both below 1493) is reported successfully upgraded while no `__context`
was ever inserted, and a pre-existing `__context` key survives in the
returned record — so "every chunk processed gets a `__context` inserted"
and "every successfully upgraded record contains no `__context`" both fail
as stated. -/
theorem context_retained_cex :
    (chunkHook catAll convId "minecraft:overworld" "minecraft:noise" none 1400
        false false 0 0
        [("DataVersion", JVal.vint 100), ("__context", JVal.vstr "stale")]).ok =
      true ∧
    getKey (chunkHook catAll convId "minecraft:overworld" "minecraft:noise"
        none 1400 false false 0 0
        [("DataVersion", JVal.vint 100),
          ("__context", JVal.vstr "stale")]).chunk "__context" =
      some (JVal.vstr "stale") ∧
    (∀ c2, Ev.secondUpgradeOn c2 ∉
      (chunkHook catAll convId "minecraft:overworld" "minecraft:noise" none
        1400 false false 0 0
        [("DataVersion", JVal.vint 100),
          ("__context", JVal.vstr "stale")]).events) := by
  refine ⟨rfl, rfl, ?_⟩
  intro c2 hmem
  have hev : (chunkHook catAll convId "minecraft:overworld" "minecraft:noise"
      none 1400 false false 0 0
      [("DataVersion", JVal.vint 100),
        ("__context", JVal.vstr "stale")]).events =
      [Ev.upgradeCall 1400 99] := rfl
  rw [hev] at hmem
  simp at hmem

theorem chunkHook_no_wroteChunk (catalog : Catalog) (convert : Converter)
    (dimId genType : String) (handler : Option Handler) (toVersion : Nat)
    (dryRun ewf : Bool) (cx cz : Int) (chunk : Compound) :
    ∀ x z cc, Ev.wroteChunk x z cc ∉ (chunkHook catalog convert dimId genType
      handler toVersion dryRun ewf cx cz chunk).events := by
  intro x z cc hmem
  simp only [chunkHook] at hmem
  split at hmem
  · split at hmem
    · simp at hmem
    · split at hmem
      · simp at hmem
      · rcases List.mem_append.mp hmem with h | h
        · simp at h
        · rcases hookPhase2_events_shape catalog convert dimId genType
              toVersion dryRun ewf cx cz _ _ _ h with
            ⟨c2, h2⟩ | h2 | h2 | ⟨a2, b2, c2, h2⟩ <;> simp at h2
  · rcases hookPhase2_events_shape catalog convert dimId genType toVersion
        dryRun ewf cx cz _ _ _ hmem with
      ⟨c2, h2⟩ | h2 | h2 | ⟨a2, b2, c2, h2⟩ <;> simp at h2

theorem processRegion_mem (dryRun : Bool)
    (hook : Int → Int → Compound → HookResult) :
    ∀ (regions : RegionData) (evs0 : List Ev) (e : Ev),
      e ∈ regions.foldl (regionStep dryRun hook) evs0 →
      e ∈ evs0 ∨ ∃ cp, cp ∈ regions ∧
        (e ∈ (hook cp.1.1 cp.1.2 cp.2).events ∨
          ((hook cp.1.1 cp.1.2 cp.2).ok = true ∧ dryRun = false ∧
            e = Ev.wroteChunk cp.1.1 cp.1.2 (hook cp.1.1 cp.1.2 cp.2).chunk)) := by
  intro regions
  induction regions with
  | nil => intro evs0 e he; exact Or.inl he
  | cons cp tl ih =>
    intro evs0 e he
    rw [List.foldl_cons] at he
    rcases ih _ e he with h | ⟨cp2, hcp2, h2⟩
    · unfold regionStep at h
      rcases List.mem_append.mp h with h2 | h2
      · rcases List.mem_append.mp h2 with h3 | h3
        · exact Or.inl h3
        · exact Or.inr ⟨cp, List.mem_cons_self _ _, Or.inl h3⟩
      · by_cases hcond : ((hook cp.1.1 cp.1.2 cp.2).ok && !dryRun) = true
        · rw [if_pos hcond] at h2
          simp only [List.mem_singleton] at h2
          have hsplit : (hook cp.1.1 cp.1.2 cp.2).ok = true ∧ !dryRun = true := by
            simpa using hcond
          have hdry : dryRun = false := by
            have := hsplit.2
            simp at this
            exact this
          exact Or.inr ⟨cp, List.mem_cons_self _ _, Or.inr ⟨hsplit.1, hdry, h2⟩⟩
        · rw [if_neg hcond] at h2
          simp at h2
    · exact Or.inr ⟨cp2, List.mem_cons_of_mem _ hcp2, h2⟩

/-! ## Claim C5: entity extraction -/

/-- Claim C5: outside dry-run, for a chunk whose pre-conversion version is
below 2681 with a target at or past 2681, the hook's second phase ends in
the entity extraction; that extraction lifts `Level.Entities` (removing it
from the world chunk) when a `Level` compound exists and the root
`entities` key otherwise, writes an entity chunk `(Entities, value)` at the
same (x, z), does so only when the relevant `Status` is `full` or
`minecraft:full`, and a failing entity-chunk write makes the result false;
the region driver persists a chunk only when its hook returned true. -/
theorem entity_extraction_spec (catalog : Catalog) (convert : Converter)
    (dimId genType : String) (handler : Option Handler) (toVersion : Nat)
    (ewf dryRun2 : Bool) (cx cz : Int) (version : Nat) (c1 : Compound)
    (regions : RegionData) :
    (version < separateEntitiesVersion → separateEntitiesVersion ≤ toVersion →
      (upgradeRecord catalog convert (insertKey c1 "__context"
        (ctxVal dimId genType)) toVersion 99).ok = true →
      hookPhase2 catalog convert dimId genType toVersion false ewf cx cz
          version c1 =
        ((extractEntities ewf cx cz (removeKey (upgradeRecord catalog convert
            (insertKey c1 "__context" (ctxVal dimId genType)) toVersion
            99).data "__context")).1,
          (extractEntities ewf cx cz (removeKey (upgradeRecord catalog convert
            (insertKey c1 "__context" (ctxVal dimId genType)) toVersion
            99).data "__context")).2.1,
          [Ev.secondUpgradeOn (insertKey c1 "__context"
              (ctxVal dimId genType)), Ev.upgradeCall toVersion 99] ++
            (extractEntities ewf cx cz (removeKey (upgradeRecord catalog
              convert (insertKey c1 "__context" (ctxVal dimId genType))
              toVersion 99).data "__context")).2.2)) ∧
    (∀ dr : Bool, ¬(dr = false ∧ version < separateEntitiesVersion ∧
        separateEntitiesVersion ≤ toVersion) →
      (upgradeRecord catalog convert (insertKey c1 "__context"
        (ctxVal dimId genType)) toVersion 99).ok = true →
      hookPhase2 catalog convert dimId genType toVersion dr ewf cx cz
          version c1 =
        (true, removeKey (upgradeRecord catalog convert (insertKey c1
            "__context" (ctxVal dimId genType)) toVersion 99).data
            "__context",
          [Ev.secondUpgradeOn (insertKey c1 "__context"
            (ctxVal dimId genType)), Ev.upgradeCall toVersion 99])) ∧
    (∀ c level s ents, asComp (getKey c "Level") = some level →
      asStr (getKey level "Status") = some s →
      (s = "full" ∨ s = "minecraft:full") →
      getKey level "Entities" = some ents →
      extractEntities false cx cz c =
        (true, insertKey c "Level" (JVal.vcomp (removeKey level "Entities")),
          [Ev.wroteEntityChunk cx cz [("Entities", ents)]]) ∧
      (extractEntities true cx cz c).1 = false) ∧
    (∀ c level s, asComp (getKey c "Level") = some level →
      asStr (getKey level "Status") = some s →
      ¬(s = "full" ∨ s = "minecraft:full") →
      extractEntities ewf cx cz c = (true, c, [])) ∧
    (∀ c s ents, asComp (getKey c "Level") = none →
      asStr (getKey c "Status") = some s →
      (s = "full" ∨ s = "minecraft:full") →
      getKey c "entities" = some ents →
      extractEntities false cx cz c =
        (true, removeKey c "entities",
          [Ev.wroteEntityChunk cx cz [("Entities", ents)]]) ∧
      (extractEntities true cx cz c).1 = false) ∧
    (∀ x z cc, Ev.wroteChunk x z cc ∈
        (processRegion dryRun2 (fun a b cchunk => chunkHook catalog convert
          dimId genType handler toVersion dryRun2 ewf a b cchunk)
          regions).2 →
      dryRun2 = false ∧ ∃ cp, cp ∈ regions ∧
        (chunkHook catalog convert dimId genType handler toVersion dryRun2 ewf
          cp.1.1 cp.1.2 cp.2).ok = true) := by
  refine ⟨?_, ?_, ?_, ?_, ?_, ?_⟩
  · intro hv hto hok
    simp [hookPhase2, hok, hv, hto]
  · intro dr hgate hok
    simp [hookPhase2, hok, hgate]
  · intro c level s ents h1 h2 h3 h4
    constructor
    · simp [extractEntities, h1, h2, h3, h4]
    · simp [extractEntities, h1, h2, h3, h4]
  · intro c level s h1 h2 h3
    simp [extractEntities, h1, h2, h3]
  · intro c s ents h1 h2 h3 h4
    constructor
    · simp [extractEntities, h1, h2, h3, h4]
    · simp [extractEntities, h1, h2, h3, h4]
  · intro x z cc hmem
    have h := processRegion_mem dryRun2 _ regions [] _ hmem
    rcases h with h | ⟨cp, hcp, h2⟩
    · simp at h
    · rcases h2 with h2 | ⟨hok, hdry, h3⟩
      · exact absurd h2 (chunkHook_no_wroteChunk catalog convert dimId genType
          handler toVersion dryRun2 ewf cp.1.1 cp.1.2 cp.2 x z cc)
      · exact ⟨hdry, cp, hcp, hok⟩

/-! ## Claim C8: the legacy back-fill's packed references -/

theorem getKey_refStep_ne (h : Handler) (cx cz : Int) (refs : Compound)
    (k k2 : String) (hne : k2 ≠ k) :
    getKey (refStep h cx cz refs k) k2 = getKey refs k2 := by
  unfold refStep
  split
  · exact getKey_insertKey_ne _ _ _ _ hne
  · rfl

theorem foldl_refStep_longArr (h : Handler) (cx cz : Int) :
    ∀ (keys : List String) (refs : Compound) (k : String),
      isLongArr (getKey refs k) = true →
      getKey (keys.foldl (refStep h cx cz) refs) k = getKey refs k := by
  intro keys
  induction keys with
  | nil => intro refs k _; rfl
  | cons hd tl ih =>
    intro refs k hlong
    rw [List.foldl_cons]
    by_cases hk : hd = k
    · subst hk
      have hstep : refStep h cx cz refs hd = refs := by
        unfold refStep
        rw [if_neg (fun hc => by rw [hlong] at hc; simp at hc)]
      rw [hstep]
      exact ih refs hd hlong
    · have hpres := getKey_refStep_ne h cx cz refs hd k (fun he => hk he.symm)
      rw [ih _ k (by rw [hpres]; exact hlong), hpres]

theorem foldl_refStep_get (h : Handler) (cx cz : Int) :
    ∀ (keys : List String) (refs : Compound) (k : String), k ∈ keys →
      isLongArr (getKey refs k) = false →
      oldStructureRegistryKeys.contains (asciiLower k) = true →
      getKey (keys.foldl (refStep h cx cz) refs) k =
        some (JVal.vlongArr (packedStarts h cx cz k)) := by
  intro keys
  induction keys with
  | nil => intro refs k hk; simp at hk
  | cons hd tl ih =>
    intro refs k hmem hlong hreg
    rw [List.foldl_cons]
    by_cases hk : hd = k
    · subst hk
      have hstep : refStep h cx cz refs hd =
          insertKey refs hd (JVal.vlongArr (packedStarts h cx cz hd)) := by
        unfold refStep
        rw [if_pos ⟨hlong, hreg⟩]
      rw [hstep]
      rw [foldl_refStep_longArr h cx cz tl _ hd
        (by rw [getKey_insertKey_self]; rfl)]
      exact getKey_insertKey_self _ _ _
    · have hmem2 : k ∈ tl := by
        cases List.mem_cons.mp hmem with
        | inl he => exact absurd he.symm hk
        | inr he => exact he
      have hpres := getKey_refStep_ne h cx cz refs hd k (fun he => hk he.symm)
      exact ih _ k hmem2 (by rw [hpres]; exact hlong) hreg

theorem mem_squareList (cx cz : Int) (a b : Int) :
    (a, b) ∈ squareList cx cz ↔
      cx - 8 ≤ a ∧ a ≤ cx + 8 ∧ cz - 8 ≤ b ∧ b ≤ cz + 8 := by
  unfold squareList
  rw [List.mem_flatten]
  constructor
  · rintro ⟨l, hl, hp⟩
    rw [List.mem_map] at hl
    obtain ⟨i, hi, rfl⟩ := hl
    rw [List.mem_map] at hp
    obtain ⟨j, hj, hp⟩ := hp
    rw [List.mem_range] at hi
    rw [List.mem_range] at hj
    have h1 : cx - 8 + (i : Int) = a := congrArg Prod.fst hp
    have h2 : cz - 8 + (j : Int) = b := congrArg Prod.snd hp
    omega
  · rintro ⟨h1, h2, h3, h4⟩
    refine ⟨_, List.mem_map.mpr ⟨(a - (cx - 8)).toNat, ?_, rfl⟩, ?_⟩
    · rw [List.mem_range]
      omega
    · rw [List.mem_map]
      refine ⟨(b - (cz - 8)).toNat, ?_, ?_⟩
      · rw [List.mem_range]
        omega
      · have ha : cx - 8 + (((a - (cx - 8)).toNat : Nat) : Int) = a := by omega
        have hb : cz - 8 + (((b - (cz - 8)).toNat : Nat) : Int) = b := by omega
        rw [ha, hb]

theorem decode_pack (x z : Int) (hx1 : -(2 ^ 31) ≤ x) (hx2 : x < 2 ^ 31)
    (hz1 : -(2 ^ 31) ≤ z) (hz2 : z < 2 ^ 31) :
    decodePos (packPos x z) = (x, z) := by
  simp only [decodePos, packPos, i64ofU64, toU32, i32ofU32]
  simp only [Prod.mk.injEq]
  split_ifs <;> constructor <;> omega

/-- Claim C8 (amended): in the back-fill for the chunk at (cx, cz), for
every current key K whose ascii-lowercase form is in the 18-name old
structure registry and whose `References[K]` is not already a long-array,
the inserted long-array holds, for every chunk (x, z) of the 17x17 square
around (cx, cz) **that `has_legacy_start` accepts** — which requires the
handler to have legacy data and `data_map` to contain K, besides (x, z)
being in the `all` set of K's legacy key — the value packed as
`(z_u32 << 32) | x_u32` with zero-extended u32 halves; without legacy data
or a `data_map` entry for K the inserted array is empty even when `all`
lists chunks of the square.  Decoding `All`/`Remaining` uses the same
packing: x from the low and z from the high 32 bits, so decode inverts
pack on i32 coordinates. -/
theorem legacy_references_packing (h : Handler) (chunk : Compound) :
    (∀ level k, asComp (getKey chunk "Level") = some level →
      k ∈ h.currentKeys →
      oldStructureRegistryKeys.contains (asciiLower k) = true →
      isLongArr (getKey ((asComp (getKey
        (if isUnhandledStructureStart h
            (((getKey level "xPos").bind asI32).getD 0)
            (((getKey level "zPos").bind asI32).getD 0) then
          updateStructureStart h ((asComp (getKey level "Structures")).getD [])
            (((getKey level "xPos").bind asI32).getD 0)
            (((getKey level "zPos").bind asI32).getD 0)
        else (asComp (getKey level "Structures")).getD [])
        "References")).getD []) k) = false →
      ∃ lv st rf, getKey (updateFromLegacy h chunk) "Level" =
          some (JVal.vcomp lv) ∧
        getKey lv "Structures" = some (JVal.vcomp st) ∧
        getKey st "References" = some (JVal.vcomp rf) ∧
        getKey rf k = some (JVal.vlongArr (packedStarts h
          (((getKey level "xPos").bind asI32).getD 0)
          (((getKey level "zPos").bind asI32).getD 0) k))) ∧
    (∀ cx cz k, packedStarts h cx cz k =
      ((squareList cx cz).filter (fun p => hasLegacyStart h p.1 p.2 k)).map
        (fun p => packPos p.1 p.2)) ∧
    (∀ x z k lk idx, currentToLegacy k = some lk →
      alookup h.indexMap lk = some idx →
      hasLegacyStart h x z k =
        (h.hasLegacyData && (alookup h.dataMap k).isSome &&
          idx.allSet.contains (x, z))) ∧
    (∀ cx cz a b, (a, b) ∈ squareList cx cz ↔
      cx - 8 ≤ a ∧ a ≤ cx + 8 ∧ cz - 8 ≤ b ∧ b ≤ cz + 8) ∧
    (∀ x z : Int, -(2 ^ 31) ≤ x → x < 2 ^ 31 → -(2 ^ 31) ≤ z → z < 2 ^ 31 →
      decodePos (packPos x z) = (x, z)) ∧
    (∀ d allArr remArr, asLongs (getKey d "All") = some allArr →
      asLongs (getKey d "Remaining") = some remArr →
      loadIndexFromData d = ⟨allArr.map decodePos, remArr.map decodePos⟩) := by
  refine ⟨?_, ?_, ?_, ?_, ?_, ?_⟩
  · intro level k hlv hmem hreg hlong
    simp only [updateFromLegacy, hlv]
    refine ⟨_, _, _, getKey_insertKey_self _ _ _, getKey_insertKey_self _ _ _,
      getKey_insertKey_self _ _ _, ?_⟩
    exact foldl_refStep_get h _ _ h.currentKeys _ k hmem hlong hreg
  · intro cx cz k
    rfl
  · intro x z k lk idx hlk hidx
    simp [hasLegacyStart, hlk, hidx]
  · intro cx cz a b
    exact mem_squareList cx cz a b
  · intro x z hx1 hx2 hz1 hz2
    exact decode_pack x z hx1 hx2 hz1 hz2
  · intro d allArr remArr h1 h2
    simp [loadIndexFromData, h1, h2]

/-- The handler state for the C8 counterexample, as built for the
overworld from a `Temple.dat` whose only feature carries id `Igloo` at
chunk (0, 0) and a `Temple_index.dat` with `All = [0]`, `Remaining = []`
(the other legacy files absent): `data_map` holds `Igloo` but not
`Desert_Pyramid`, while the `Temple` index lists chunk (0, 0). -/
def handlerCex : Handler :=
  { hasLegacyData := true,
    dataMap := [("Igloo", [((0, 0), [("id", JVal.vstr "Igloo")])])],
    indexMap := [("Temple", ⟨[(0, 0)], []⟩)],
    currentKeys := ["Village", "Mineshaft", "Mansion", "Igloo",
      "Desert_Pyramid", "Jungle_Pyramid", "Swamp_Hut", "Monument"] }

def chunkCex : Compound :=
  [("Level", JVal.vcomp [("xPos", JVal.vint 0), ("zPos", JVal.vint 0)])]

/-- Navigation to `Level.Structures.References` of a chunk. -/
def refsOf (c : Compound) : Compound :=
  (asComp (getKey ((asComp (getKey ((asComp (getKey c "Level")).getD [])
    "Structures")).getD []) "References")).getD []

/-- Claim C8 counterexample: with legacy data present but `data_map` not
containing `Desert_Pyramid`, the back-fill inserts an empty long-array at
`References.Desert_Pyramid` although chunk (0, 0) lies in the 17x17 square
and in the `all` index set of `Desert_Pyramid`'s legacy key `Temple` — the
claim as stated demands the packed value 0 in that array. -/
theorem legacy_references_not_all_packed_cex :
    getKey (refsOf (updateFromLegacy handlerCex chunkCex)) "Desert_Pyramid" =
      some (JVal.vlongArr []) ∧
    currentToLegacy "Desert_Pyramid" = some "Temple" ∧
    alookup handlerCex.indexMap "Temple" =
      some (⟨[(0, 0)], []⟩ : FeatureIndex) ∧
    (0, 0) ∈ squareList 0 0 ∧
    packPos 0 0 = 0 ∧
    oldStructureRegistryKeys.contains (asciiLower "Desert_Pyramid") = true ∧
    "Desert_Pyramid" ∈ handlerCex.currentKeys := by
  refine ⟨rfl, rfl, rfl, ?_, rfl, rfl, ?_⟩
  · decide
  · simp [handlerCex]

/-! ## Claim C9: dry-run purity -/

theorem upgradeData_dry_fst (catalog : Catalog) (convert : Converter)
    (fs : DataFolder) (nm : String) (toVersion : Nat) :
    (upgradeData catalog convert fs nm toVersion true).1 = fs := by
  unfold upgradeData
  cases hf : findFile fs nm with
  | none => rfl
  | some f =>
    cases f with
    | none => rfl
    | some data =>
      simp only
      by_cases hok : (upgradeRecord catalog convert data toVersion 99).ok = false
      · rw [if_pos hok]
      · rw [if_neg hok, if_pos trivial]

theorem upgradeData_dry_events (catalog : Catalog) (convert : Converter)
    (fs : DataFolder) (nm : String) (toVersion : Nat) :
    ∀ e ∈ (upgradeData catalog convert fs nm toVersion true).2,
      e.isMutation = false := by
  intro e he
  unfold upgradeData at he
  cases hf : findFile fs nm with
  | none =>
    rw [hf] at he
    simp at he
    subst he
    rfl
  | some f =>
    cases f with
    | none =>
      rw [hf] at he
      simp at he
      rcases he with rfl | rfl <;> rfl
    | some data =>
      rw [hf] at he
      simp only at he
      by_cases hok : (upgradeRecord catalog convert data toVersion 99).ok = false
      · rw [if_pos hok] at he
        simp at he
        rcases he with rfl | rfl <;> rfl
      · rw [if_neg hok, if_pos trivial] at he
        simp at he
        subst he
        rfl

theorem mapFold_dry (catalog : Catalog) (convert : Converter) (toVersion : Nat) :
    ∀ (l : List Nat) (fs : DataFolder) (evs : List Ev),
      ((l.foldl (mapFoldStep catalog convert toVersion true) (fs, evs)).1 = fs) ∧
      (∀ e ∈ (l.foldl (mapFoldStep catalog convert toVersion true) (fs, evs)).2,
        e ∈ evs ∨ e.isMutation = false) := by
  intro l
  induction l with
  | nil => intro fs evs; exact ⟨rfl, fun e he => Or.inl he⟩
  | cons i tl ih =>
    intro fs evs
    rw [List.foldl_cons, mapFoldStep_eq, upgradeData_dry_fst]
    refine ⟨(ih fs _).1, fun e he => ?_⟩
    rcases (ih fs _).2 e he with h | h
    · rcases List.mem_append.mp h with h2 | h2
      · exact Or.inl h2
      · exact Or.inr (upgradeData_dry_events catalog convert fs _ toVersion e h2)
    · exact Or.inr h

theorem upgradeMapData_dry (catalog : Catalog) (convert : Converter)
    (fs : DataFolder) (toVersion : Nat) :
    (upgradeMapData catalog convert fs toVersion true).1 = fs ∧
    ∀ e ∈ (upgradeMapData catalog convert fs toVersion true).2,
      e.isMutation = false := by
  unfold upgradeMapData
  cases hf : findFile fs "idcounts" with
  | none => exact ⟨rfl, fun e he => by simp at he⟩
  | some f =>
    cases f with
    | none =>
      refine ⟨rfl, fun e he => ?_⟩
      simp at he
      subst he
      rfl
    | some idc =>
      simp only
      cases h2 : (getKey idc "map").bind asI32 with
      | none => exact ⟨rfl, fun e he => by simp at he⟩
      | some mapCount =>
        refine ⟨(mapFold_dry catalog convert toVersion _ fs []).1,
          fun e he => ?_⟩
        rcases (mapFold_dry catalog convert toVersion _ fs []).2 e he with h | h
        · simp at h
        · exact h

theorem upgradeRaids_dry (catalog : Catalog) (convert : Converter)
    (dimId : String) (fs : DataFolder) (toVersion : Nat) (roe : Bool) :
    (upgradeRaids catalog convert dimId fs toVersion true roe).1 = fs ∧
    ∀ e ∈ (upgradeRaids catalog convert dimId fs toVersion true roe).2,
      e.isMutation = false := by
  by_cases h0 : toVersion < firstRaidsVersion
  · refine ⟨by simp [upgradeRaids, h0], fun e he => ?_⟩
    simp [upgradeRaids, h0] at he
  · by_cases hc : netherRaidsRename ≤ toVersion ∧ dimId = "minecraft:the_nether"
    · cases hr : findFile fs "raids" with
      | some f =>
        refine ⟨by simp [upgradeRaids, h0, hc, hr, upgradeData_dry_fst],
          fun e he => ?_⟩
        simp [upgradeRaids, h0, hc, hr] at he
        exact upgradeData_dry_events catalog convert fs _ toVersion e he
      | none =>
        refine ⟨by simp [upgradeRaids, h0, hc, hr, upgradeData_dry_fst],
          fun e he => ?_⟩
        simp [upgradeRaids, h0, hc, hr, upgradeData_dry_fst] at he
        rcases he with he | he
        · exact upgradeData_dry_events catalog convert fs _ toVersion e he
        · exact upgradeData_dry_events catalog convert fs _ toVersion e he
    · refine ⟨by simp [upgradeRaids, h0, hc, upgradeData_dry_fst],
        fun e he => ?_⟩
      simp [upgradeRaids, h0, hc] at he
      exact upgradeData_dry_events catalog convert fs _ toVersion e he

theorem upgradeLevelDat_dry_events (catalog : Catalog) (cL cW : Converter)
    (latest : Nat) (file : Option Compound) (toV : Nat) :
    ∀ e ∈ (upgradeLevelDat catalog cL cW latest file toV true).2,
      e.isMutation = false := by
  intro e he
  cases file with
  | none =>
    simp [upgradeLevelDat] at he
    subst he
    rfl
  | some levelDat =>
    cases hdd : asComp (getKey levelDat "Data") with
    | none =>
      simp [upgradeLevelDat, hdd] at he
      subst he
      rfl
    | some data =>
      simp only [upgradeLevelDat, hdd] at he
      cases hcat : catalog (interpDataVersion (getKey data "DataVersion") 99) with
      | none =>
        simp [hcat] at he
        subst he
        rfl
      | some entry =>
        simp only [hcat] at he
        by_cases hlt : toV < entry.dataVersion
        · rw [if_pos hlt] at he
          simp at he
          subst he
          rfl
        · rw [if_neg hlt] at he
          simp at he

theorem upgradeDirFile_dry_events (catalog : Catalog) (convert : Converter)
    (path : String) (file : Option Compound) (toVersion dflt : Nat) :
    ∀ e ∈ upgradeDirFile catalog convert path file toVersion dflt true,
      e.isMutation = false := by
  intro e he
  unfold upgradeDirFile at he
  cases file with
  | none =>
    simp at he
    subst he
    rfl
  | some data =>
    simp only at he
    by_cases hok : (upgradeRecord catalog convert data toVersion dflt).ok = false
    · rw [if_pos hok] at he
      simp at he
      subst he
      rfl
    · rw [if_neg hok, if_pos trivial] at he
      simp at he

theorem chunkHook_dry_events (catalog : Catalog) (convert : Converter)
    (dimId genType : String) (handler : Option Handler) (toVersion : Nat)
    (ewf : Bool) (cx cz : Int) (chunk : Compound) :
    ∀ e ∈ (chunkHook catalog convert dimId genType handler toVersion true ewf
        cx cz chunk).events,
      e.isMutation = false := by
  intro e he
  simp only [chunkHook] at he
  split at he
  · split at he
    · simp at he
      subst he
      rfl
    · split at he
      · simp at he
        subst he
        rfl
      · rcases List.mem_append.mp he with h | h
        · simp at h
          rcases h with rfl | rfl <;> rfl
        · rw [hookPhase2_dry_events] at h
          simp at h
          rcases h with rfl | rfl <;> rfl
  · rw [hookPhase2_dry_events] at he
    simp at he
    rcases he with rfl | rfl <;> rfl

theorem processRegion_dry_fst (hook : Int → Int → Compound → HookResult)
    (regions : RegionData) : (processRegion true hook regions).1 = regions := by
  unfold processRegion
  simp

theorem upgradeChunksModel_dry (catalog : Catalog) (convert : Converter)
    (dimId genType : String) (handler : Option Handler) (toVersion : Nat)
    (ewf : Bool) (regions : RegionData) :
    (upgradeChunksModel catalog convert dimId genType handler toVersion true
      ewf regions).1 = regions ∧
    ∀ e ∈ (upgradeChunksModel catalog convert dimId genType handler toVersion
        true ewf regions).2,
      e.isMutation = false := by
  constructor
  · simp only [upgradeChunksModel]
    exact processRegion_dry_fst _ regions
  · intro e he
    simp only [upgradeChunksModel] at he
    rw [if_neg (fun hh => by simpa using hh.1)] at he
    simp only [List.nil_append] at he
    rcases processRegion_mem true _ regions [] e he with h | ⟨cp, _, h2⟩
    · simp at h
    · rcases h2 with h2 | ⟨_, hdry, _⟩
      · exact chunkHook_dry_events catalog convert dimId genType handler
          toVersion ewf cp.1.1 cp.1.2 cp.2 e h2
      · simp at hdry

/-- Claim C9: with dry-run set, no modelled component mutates the
filesystem: the saved-data upgrader, the map-data upgrader and the raids
upgrader leave their folder untouched and emit no mutation effect (no
write, rename, deletion or directory creation); level.dat is not written;
the playerdata/advancements/stats per-file bodies write nothing; the chunk
driver creates no `entities/` folder, writes no chunk and no entity chunk,
and leaves every region file's content as it was; and the legacy
structure-file deletion step is skipped. -/
theorem dry_run_purity (catalog : Catalog) (convert cL cW : Converter)
    (fs : DataFolder) (nm dimId genType path : String)
    (handler : Option Handler) (latest toVersion dflt : Nat)
    (roe ewf : Bool) (file : Option Compound) (regions : RegionData) :
    ((upgradeData catalog convert fs nm toVersion true).1 = fs ∧
      ∀ e ∈ (upgradeData catalog convert fs nm toVersion true).2,
        e.isMutation = false) ∧
    ((upgradeMapData catalog convert fs toVersion true).1 = fs ∧
      ∀ e ∈ (upgradeMapData catalog convert fs toVersion true).2,
        e.isMutation = false) ∧
    ((upgradeRaids catalog convert dimId fs toVersion true roe).1 = fs ∧
      ∀ e ∈ (upgradeRaids catalog convert dimId fs toVersion true roe).2,
        e.isMutation = false) ∧
    (∀ e ∈ (upgradeLevelDat catalog cL cW latest file toVersion true).2,
      e.isMutation = false) ∧
    (∀ e ∈ upgradeDirFile catalog convert path file toVersion dflt true,
      e.isMutation = false) ∧
    ((upgradeChunksModel catalog convert dimId genType handler toVersion true
        ewf regions).1 = regions ∧
      ∀ e ∈ (upgradeChunksModel catalog convert dimId genType handler
          toVersion true ewf regions).2,
        e.isMutation = false) ∧
    deleteLegacyStep true fs = (fs, []) := by
  refine ⟨⟨upgradeData_dry_fst catalog convert fs nm toVersion,
      upgradeData_dry_events catalog convert fs nm toVersion⟩,
    upgradeMapData_dry catalog convert fs toVersion,
    upgradeRaids_dry catalog convert dimId fs toVersion roe,
    upgradeLevelDat_dry_events catalog cL cW latest file toVersion,
    upgradeDirFile_dry_events catalog convert path file toVersion dflt,
    upgradeChunksModel_dry catalog convert dimId genType handler toVersion ewf
      regions,
    rfl⟩

end WTCli
